import Mathlib

/-!
Verification of the DrBN request-normalisation / model-adapter layer.

The TypeScript sources (`functions/src/index.ts` and the client module) are
shallowly embedded over `List Char`: JavaScript strings become `List Char`,
JavaScript values that flow through request bodies become `JsVal`, and the
two HTTP handlers become pure functions parameterised by the text the
external model would return (the model itself is an external collaborator).
-/

namespace DrBN

/-- Strings of the embedded program are lists of characters. -/
abbrev Str := List Char

/-- Convert a Lean string literal into the embedded string type. -/
def lit (s : String) : Str := s.toList

/-- Characters stripped by JavaScript `String.prototype.trim`
(ECMAScript WhiteSpace plus LineTerminator). -/
def isJsWs (c : Char) : Bool :=
  c == ' ' || c == '\t' || c == '\n' || c == '\r' ||
  c == '\u000B' || c == '\u000C' || c == '\u00A0' || c == '\uFEFF' ||
  c == '\u1680' || c == '\u2000' || c == '\u2001' || c == '\u2002' ||
  c == '\u2003' || c == '\u2004' || c == '\u2005' || c == '\u2006' ||
  c == '\u2007' || c == '\u2008' || c == '\u2009' || c == '\u200A' ||
  c == '\u2028' || c == '\u2029' || c == '\u202F' || c == '\u205F' ||
  c == '\u3000'

/-- Whitespace accepted by the JSON grammar used by `JSON.parse`
(space, tab, line feed, carriage return). -/
def isJsonWs (c : Char) : Bool :=
  c == ' ' || c == '\t' || c == '\n' || c == '\r'

/-- Drop matching characters from the end of a list. -/
def rdrop (p : Char → Bool) (l : Str) : Str :=
  ((l.reverse).dropWhile p).reverse

/-- Embedding of `String.prototype.trim`. -/
def jsTrim (l : Str) : Str :=
  rdrop isJsWs (l.dropWhile isJsWs)

/-- Trim only JSON grammar whitespace from both ends. -/
def jsonTrim (l : Str) : Str :=
  rdrop isJsonWs (l.dropWhile isJsonWs)

theorem jsonWs_imp_jsWs {c : Char} (h : isJsonWs c = true) : isJsWs c = true := by
  simp only [isJsonWs, Bool.or_eq_true] at h
  simp only [isJsWs, Bool.or_eq_true]
  tauto

theorem dropWhile_append_of_all {p : Char → Bool} {w l : Str}
    (h : ∀ c ∈ w, p c = true) : (w ++ l).dropWhile p = l.dropWhile p := by
  induction w with
  | nil => rfl
  | cons c w ih =>
    simp only [List.cons_append, List.dropWhile_cons]
    rw [h c (by simp)]
    exact ih fun d hd => h d (by simp [hd])

theorem head_dropWhile_not {p : Char → Bool} {l : Str} {c : Char} {t : Str}
    (h : l.dropWhile p = c :: t) : p c = false := by
  induction l with
  | nil => simp at h
  | cons a l ih =>
    by_cases hp : p a = true
    · rw [List.dropWhile_cons, hp] at h
      simp only [if_true] at h
      exact ih h
    · rw [List.dropWhile_cons] at h
      simp only [Bool.not_eq_true] at hp
      rw [hp] at h
      simp only [Bool.false_eq_true, if_false] at h
      cases h
      simpa using hp

theorem dropWhile_eq_self_of_head {p : Char → Bool} {l : Str}
    (h : ∀ c t, l = c :: t → p c = false) : l.dropWhile p = l := by
  cases l with
  | nil => rfl
  | cons c t =>
    rw [List.dropWhile_cons, h c t rfl]
    simp

theorem exists_dropWhile_decomp (p : Char → Bool) (l : Str) :
    ∃ w, l = w ++ l.dropWhile p ∧ ∀ c ∈ w, p c = true := by
  refine ⟨l.takeWhile p, ?_, ?_⟩
  · exact (List.takeWhile_append_dropWhile (p := p) (l := l)).symm
  · intro c hc
    exact List.mem_takeWhile_imp hc

theorem length_dropWhile_le' (p : Char → Bool) (l : Str) :
    (l.dropWhile p).length ≤ l.length := by
  induction l with
  | nil => simp
  | cons a t ih =>
    rw [List.dropWhile_cons]
    by_cases ha : p a = true
    · rw [ha]
      simp only [if_true]
      exact Nat.le_succ_of_le ih
    · simp only [Bool.not_eq_true] at ha
      rw [ha]
      simp

theorem dropWhile_append_of_ne {p : Char → Bool} {l : Str} (r : Str)
    (hne : l.dropWhile p ≠ []) : (l ++ r).dropWhile p = l.dropWhile p ++ r := by
  induction l with
  | nil => simp at hne
  | cons a t ih =>
    rw [List.cons_append, List.dropWhile_cons, List.dropWhile_cons]
    by_cases ha : p a = true
    · rw [ha]
      simp only [if_true]
      rw [List.dropWhile_cons, ha] at hne
      simp only [if_true] at hne
      exact ih hne
    · simp only [Bool.not_eq_true] at ha
      rw [ha]
      simp

theorem dropWhile_subset_trans {p q : Char → Bool} (hpq : ∀ c, p c = true → q c = true)
    (l : Str) : (l.dropWhile p).dropWhile q = l.dropWhile q := by
  induction l with
  | nil => rfl
  | cons c t ih =>
    by_cases hp : p c = true
    · rw [List.dropWhile_cons, hp]
      simp only [if_true]
      rw [ih, List.dropWhile_cons, hpq c hp]
      simp
    · simp only [Bool.not_eq_true] at hp
      rw [List.dropWhile_cons, hp]
      simp

theorem rdrop_append_of_all {p : Char → Bool} {l w : Str}
    (h : ∀ c ∈ w, p c = true) : rdrop p (l ++ w) = rdrop p l := by
  unfold rdrop
  rw [List.reverse_append, dropWhile_append_of_all (by simpa using fun c hc => h c hc)]

theorem rdrop_eq_self_of_last {p : Char → Bool} {l : Str}
    (h : ∀ c t, l.reverse = c :: t → p c = false) : rdrop p l = l := by
  unfold rdrop
  rw [dropWhile_eq_self_of_head h, List.reverse_reverse]

theorem length_rdrop_le (p : Char → Bool) (l : Str) : (rdrop p l).length ≤ l.length := by
  unfold rdrop
  calc ((l.reverse.dropWhile p).reverse).length
      = (l.reverse.dropWhile p).length := List.length_reverse _
    _ ≤ l.reverse.length := length_dropWhile_le' _ _
    _ = l.length := List.length_reverse _

theorem length_jsTrim_le (l : Str) : (jsTrim l).length ≤ l.length := by
  unfold jsTrim
  calc (rdrop isJsWs (l.dropWhile isJsWs)).length
      ≤ (l.dropWhile isJsWs).length := length_rdrop_le _ _
    _ ≤ l.length := length_dropWhile_le' _ _

/-- A list whose first and last characters are not whitespace is untouched by trim. -/
theorem jsTrim_eq_self {l : Str}
    (hh : ∀ c t, l = c :: t → isJsWs c = false)
    (hl : ∀ c t, l.reverse = c :: t → isJsWs c = false) : jsTrim l = l := by
  unfold jsTrim
  rw [dropWhile_eq_self_of_head hh, rdrop_eq_self_of_last hl]

theorem jsTrim_cons_ws {c : Char} {l : Str} (h : isJsWs c = true) :
    jsTrim (c :: l) = jsTrim l := by
  unfold jsTrim
  rw [show c :: l = [c] ++ l from rfl, dropWhile_append_of_all (by simpa using h)]

theorem jsTrim_append_ws {c : Char} {l : Str} (h : isJsWs c = true) :
    jsTrim (l ++ [c]) = jsTrim l := by
  unfold jsTrim
  by_cases hall : ∀ d ∈ l, isJsWs d = true
  · have h1 : ∀ d ∈ l ++ [c], isJsWs d = true := by
      intro d hd
      rcases List.mem_append.mp hd with h2 | h2
      · exact hall d h2
      · simp only [List.mem_singleton] at h2
        subst h2
        exact h
    rw [List.dropWhile_eq_nil_iff.mpr h1, List.dropWhile_eq_nil_iff.mpr hall]
  · -- some character of l is not whitespace, so dropWhile stops inside l
    push_neg at hall
    have hne : l.dropWhile isJsWs ≠ [] := by
      intro hnil
      rcases hall with ⟨d, hd, hdw⟩
      exact hdw (List.dropWhile_eq_nil_iff.mp hnil d hd)
    rw [dropWhile_append_of_ne [c] hne, rdrop_append_of_all (by simpa using h)]

/-- The trimmed list is a prefix of the left-trimmed list: the end-trim only
removes a (whitespace) suffix. -/
theorem dropWhile_eq_jsTrim_append (l : Str) :
    l.dropWhile isJsWs =
      jsTrim l ++ ((l.dropWhile isJsWs).reverse.takeWhile isJsWs).reverse := by
  unfold jsTrim rdrop
  conv_lhs => rw [← List.reverse_reverse (l.dropWhile isJsWs),
    ← List.takeWhile_append_dropWhile (p := isJsWs) (l := (l.dropWhile isJsWs).reverse)]
  rw [List.reverse_append]

theorem jsTrim_idem (l : Str) : jsTrim (jsTrim l) = jsTrim l := by
  apply jsTrim_eq_self
  · intro c t hct
    have hA := dropWhile_eq_jsTrim_append l
    rw [hct] at hA
    exact head_dropWhile_not (by simpa using hA)
  · intro c t hct
    have : (jsTrim l).reverse = (l.dropWhile isJsWs).reverse.dropWhile isJsWs := by
      unfold jsTrim rdrop
      rw [List.reverse_reverse]
    rw [this] at hct
    exact head_dropWhile_not hct

/-! ### Markdown fence stripping (`skinAnalysis`, fence-strip block) -/

/-- A plain three-backtick fence marker. -/
def fence : Str := lit "```"

/-- A three-backtick marker immediately followed by the word json. -/
def fenceJson : Str := lit "```json"

/-- Embedding of `String.prototype.startsWith`. -/
def startsB (pat l : Str) : Bool := List.isPrefixOf pat l

/-- Embedding of `String.prototype.endsWith`. -/
def endsB (pat l : Str) : Bool := List.isPrefixOf pat.reverse l.reverse

/-- Embedding of the fence-stripping block of `skinAnalysis`: trim, drop a
leading backtick-json fence, then a leading plain fence, then a trailing
fence (`slice(0, -3)`), then trim again. -/
def cleanFence (s : Str) : Str :=
  let t := jsTrim s
  let t1 := if startsB fenceJson t then t.drop 7 else t
  let t2 := if startsB fence t1 then t1.drop 3 else t1
  let t3 := if endsB fence t2 then t2.take (t2.length - 3) else t2
  jsTrim t3

theorem startsB_iff {pat l : Str} : startsB pat l = true ↔ ∃ x, l = pat ++ x := by
  unfold startsB
  rw [List.isPrefixOf_iff_prefix]
  constructor
  · rintro ⟨x, hx⟩
    exact ⟨x, hx.symm⟩
  · rintro ⟨x, hx⟩
    exact ⟨x, hx.symm⟩

theorem startsB_append (pat x : Str) : startsB pat (pat ++ x) = true :=
  startsB_iff.mpr ⟨x, rfl⟩

theorem endsB_iff {pat l : Str} : endsB pat l = true ↔ ∃ x, l = x ++ pat := by
  unfold endsB
  rw [List.isPrefixOf_iff_prefix]
  constructor
  · rintro ⟨x, hx⟩
    refine ⟨x.reverse, ?_⟩
    have h2 := congrArg List.reverse hx
    rw [List.reverse_append, List.reverse_reverse, List.reverse_reverse] at h2
    exact h2.symm
  · rintro ⟨x, rfl⟩
    exact ⟨x.reverse, by rw [List.reverse_append]⟩

theorem endsB_append (pat x : Str) : endsB pat (x ++ pat) = true :=
  endsB_iff.mpr ⟨x, rfl⟩

theorem startsB_length_le {pat l : Str} (h : startsB pat l = true) :
    pat.length ≤ l.length := by
  rcases startsB_iff.mp h with ⟨x, rfl⟩
  simp

theorem endsB_length_le {pat l : Str} (h : endsB pat l = true) :
    pat.length ≤ l.length := by
  rcases endsB_iff.mp h with ⟨x, rfl⟩
  simp

theorem startsB_false_of_short {pat l : Str} (h : l.length < pat.length) :
    startsB pat l = false := by
  by_contra hc
  simp only [Bool.not_eq_false] at hc
  exact absurd (startsB_length_le hc) (by omega)

theorem endsB_false_of_short {pat l : Str} (h : l.length < pat.length) :
    endsB pat l = false := by
  by_contra hc
  simp only [Bool.not_eq_false] at hc
  exact absurd (endsB_length_le hc) (by omega)

theorem startsB_fence_of_fenceJson {l : Str} (h : startsB fenceJson l = true) :
    startsB fence l = true := by
  rcases startsB_iff.mp h with ⟨x, rfl⟩
  exact startsB_iff.mpr ⟨'j' :: 's' :: 'o' :: 'n' :: x, rfl⟩

/-- The markdown wrapping used in the round-trip property. -/
def wrapJson (s : Str) : Str := lit "```json\n" ++ s ++ lit "\n```"

/-- Splitting `rdrop` over an append. -/
theorem rdrop_append (p : Char → Bool) (a v : Str) :
    rdrop p (a ++ v) = if rdrop p v = [] then rdrop p a else a ++ rdrop p v := by
  by_cases h : rdrop p v = []
  · rw [if_pos h]
    unfold rdrop at h ⊢
    have hnil : v.reverse.dropWhile p = [] := by
      have := congrArg List.reverse h
      rw [List.reverse_reverse] at this
      simpa using this
    rw [List.reverse_append, dropWhile_append_of_all (List.dropWhile_eq_nil_iff.mp hnil)]
  · rw [if_neg h]
    unfold rdrop at h ⊢
    have hne : v.reverse.dropWhile p ≠ [] := by
      intro hnil
      exact h (by rw [hnil]; rfl)
    rw [List.reverse_append, dropWhile_append_of_ne _ hne, List.reverse_append,
      List.reverse_reverse]

theorem jsTrim_fence_append (v : Str) :
    jsTrim (fence ++ v) =
      if rdrop isJsWs v = [] then fence else fence ++ rdrop isJsWs v := by
  unfold jsTrim
  rw [dropWhile_eq_self_of_head ?hh]
  case hh =>
    intro c t h
    have h2 : '`' :: ('`' :: '`' :: v) = c :: t := h
    have hc : c = '`' := by
      injection h2 with h3 _
      exact h3.symm
    subst hc
    decide
  rw [rdrop_append]
  have hf : rdrop isJsWs fence = fence := by decide
  rw [hf]

theorem startsB_jsTrim_fence_append (v : Str) :
    startsB fence (jsTrim (fence ++ v)) = true := by
  rw [jsTrim_fence_append]
  by_cases h : rdrop isJsWs v = []
  · rw [if_pos h]
    decide
  · rw [if_neg h]
    exact startsB_append _ _

/-- Round trip of the fence wrapper: stripping the wrapper is plain trimming. -/
theorem cleanFence_wrapJson (s : Str) : cleanFence (wrapJson s) = jsTrim s := by
  have hw : wrapJson s = fenceJson ++ ('\n' :: (s ++ lit "\n```")) := by
    simp [wrapJson, fenceJson, lit, List.append_assoc]
  have htrim : jsTrim (wrapJson s) = wrapJson s := by
    apply jsTrim_eq_self
    · intro c t h
      rw [hw] at h
      have h2 : '`' :: ('`' :: '`' :: 'j' :: 's' :: 'o' :: 'n' :: '\n' ::
          (s ++ lit "\n```")) = c :: t := h
      have hc : c = '`' := by
        injection h2 with h3 _
        exact h3.symm
      subst hc
      decide
    · intro c t h
      have hrev : (wrapJson s).reverse =
          '`' :: ('`' :: '`' :: '\n' :: (lit "```json\n" ++ s).reverse) := by
        unfold wrapJson
        rw [List.reverse_append]
        rfl
      rw [hrev] at h
      have hc : c = '`' := by
        injection h with h3 _
        exact h3.symm
      subst hc
      decide
  unfold cleanFence
  simp only
  rw [htrim, hw]
  rw [if_pos (startsB_append fenceJson _)]
  have hd7 : (fenceJson ++ ('\n' :: (s ++ lit "\n```"))).drop 7 =
      '\n' :: (s ++ lit "\n```") := List.drop_left fenceJson _
  rw [hd7]
  have hns : startsB fence ('\n' :: (s ++ lit "\n```")) = false := rfl
  rw [hns]
  simp only [Bool.false_eq_true, if_false]
  have hsplit : '\n' :: (s ++ lit "\n```") = ('\n' :: (s ++ ['\n'])) ++ fence := by
    simp [fence, lit, List.append_assoc]
  rw [hsplit, if_pos (endsB_append fence _)]
  have hlen : (('\n' :: (s ++ ['\n'])) ++ fence).length - 3 =
      ('\n' :: (s ++ ['\n'])).length := by
    simp [fence, lit]
  rw [hlen, List.take_left, jsTrim_cons_ws (by decide), jsTrim_append_ws (by decide)]

/-! ### Idempotence of fence stripping -/

/-- Strip at most one leading fence marker: the backtick-json marker when
present, else a plain backtick marker. -/
def stripLead1 (t : Str) : Str :=
  if startsB fenceJson t then t.drop 7
  else if startsB fence t then t.drop 3
  else t

/-- Strip at most one trailing fence marker. -/
def stripTrail1 (t : Str) : Str :=
  if endsB fence t then t.take (t.length - 3) else t

/-- No fence marker at either edge. -/
def noEdge (u : Str) : Bool := !(startsB fence u) && !(endsB fence u)

/-- An input with at most one leading fence marker and at most one trailing
fence marker: after trimming, removing a single leading marker and a single
trailing marker and trimming again leaves no marker at either edge. -/
def atMostOneFence (s : Str) : Bool :=
  noEdge (jsTrim (stripTrail1 (stripLead1 (jsTrim s))))

/-- The code's two-step leading strip (backtick-json, then plain backtick). -/
def stripLeadCode (t : Str) : Str :=
  let t1 := if startsB fenceJson t then t.drop 7 else t
  if startsB fence t1 then t1.drop 3 else t1

theorem cleanFence_eq (s : Str) :
    cleanFence s = jsTrim (stripTrail1 (stripLeadCode (jsTrim s))) := rfl

theorem noEdge_split {u : Str} (h : noEdge u = true) :
    startsB fence u = false ∧ endsB fence u = false := by
  unfold noEdge at h
  rw [Bool.and_eq_true, Bool.not_eq_true', Bool.not_eq_true'] at h
  exact h

/-- On a trimmed string with no fence marker at either edge, the stripping
pipeline is the identity. -/
theorem cleanFence_of_noEdge {u : Str} (ht : jsTrim u = u)
    (hs : startsB fence u = false) (he : endsB fence u = false) :
    cleanFence u = u := by
  have hj : startsB fenceJson u = false := by
    by_contra hc
    simp only [Bool.not_eq_false] at hc
    rw [startsB_fence_of_fenceJson hc] at hs
    cases hs
  unfold cleanFence
  simp only
  rw [ht, hj]
  simp only [Bool.false_eq_true, if_false]
  rw [hs]
  simp only [Bool.false_eq_true, if_false]
  rw [he]
  simp only [Bool.false_eq_true, if_false]
  exact ht

/-- Under the one-marker precondition, the stripped result has no fence marker
at either edge. -/
theorem noEdge_cleanFence {s : Str} (hP : atMostOneFence s = true) :
    noEdge (cleanFence s) = true := by
  unfold atMostOneFence at hP
  rw [cleanFence_eq]
  by_cases hj : startsB fenceJson (jsTrim s) = true
  · -- leading backtick-json marker present
    rcases startsB_iff.mp hj with ⟨u, hu⟩
    have hdrop : (jsTrim s).drop 7 = u := by
      rw [hu]
      exact List.drop_left fenceJson u
    have hlead1 : stripLead1 (jsTrim s) = u := by
      unfold stripLead1
      rw [if_pos hj, hdrop]
    rw [hlead1] at hP
    have hcode : stripLeadCode (jsTrim s) =
        if startsB fence u then u.drop 3 else u := by
      unfold stripLeadCode
      simp only
      rw [if_pos hj, hdrop]
    rw [hcode]
    by_cases hf : startsB fence u = true
    · -- a second leading marker begins the remainder
      rcases startsB_iff.mp hf with ⟨w, hw⟩
      have hdrop3 : u.drop 3 = w := by
        rw [hw]
        exact List.drop_left fence w
      by_cases hwlen : w.length < 3
      · -- the remainder is too short to hold any further marker
        rw [if_pos hf, hdrop3]
        have hts : stripTrail1 w = w := by
          unfold stripTrail1
          rw [endsB_false_of_short (by simpa [fence, lit] using hwlen)]
          simp
        rw [hts]
        have hlen2 : (jsTrim w).length < 3 := lt_of_le_of_lt (length_jsTrim_le w) hwlen
        unfold noEdge
        rw [startsB_false_of_short (by simpa [fence, lit] using hlen2),
          endsB_false_of_short (by simpa [fence, lit] using hlen2)]
        rfl
      · -- a long remainder would leave a marker at the front: excluded by hP
        exfalso
        push_neg at hwlen
        by_cases he : endsB fence u = true
        · have htail : stripTrail1 u = fence ++ w.take (w.length - 3) := by
            unfold stripTrail1
            rw [if_pos he, hw]
            have h1 : (fence ++ w).length - 3 = w.length := by
              simp [fence, lit]
            rw [h1, List.take_append_eq_append_take,
              List.take_of_length_le (by simpa [fence, lit] using hwlen)]
            have h2 : w.length - fence.length = w.length - 3 := by
              simp [fence, lit]
            rw [h2]
          rw [htail] at hP
          have := (noEdge_split hP).1
          rw [startsB_jsTrim_fence_append] at this
          cases this
        · have htail : stripTrail1 u = fence ++ w := by
            simp only [Bool.not_eq_true] at he
            unfold stripTrail1
            rw [he]
            simp [hw]
          rw [htail] at hP
          have := (noEdge_split hP).1
          rw [startsB_jsTrim_fence_append] at this
          cases this
    · -- no second leading marker: code strip agrees with one-marker strip
      simp only [Bool.not_eq_true] at hf
      rw [hf]
      simp only [Bool.false_eq_true, if_false]
      exact hP
  · -- no leading backtick-json marker: both pipelines agree
    simp only [Bool.not_eq_true] at hj
    have hcode : stripLeadCode (jsTrim s) = stripLead1 (jsTrim s) := by
      unfold stripLeadCode stripLead1
      simp only
      rw [hj]
      simp
    rw [hcode]
    exact hP

/-! ### normalizeBase64 and the data-URL regex -/

/-- Case-insensitive character comparison. The regex flag i on an all-ASCII
pattern folds only ASCII letters (non-ASCII characters never canonicalise to
an ASCII letter without the unicode flag), so ASCII lowercasing is exact here. -/
def ciEq (a b : Char) : Bool := a.toLower == b.toLower

/-- Case-insensitive prefix test of a pattern against a string. -/
def ciPre : Str → Str → Bool
  | [], _ => true
  | _ :: _, [] => false
  | p :: ps, c :: cs => ciEq p c && ciPre ps cs

/-- Characters matched by a dot in a JavaScript regex without the s flag. -/
def dotC (c : Char) : Bool :=
  !(c == '\n' || c == '\r' || c == ' ' || c == ' ')

/-- The literal separator of the data-URL pattern. -/
def sepPat : Str := lit ";base64,"

/-- The literal scheme of the data-URL pattern. -/
def dataPat : Str := lit "data:"

/-- Attempt to read the separator and a non-empty dot-only payload reaching
the end of the string. -/
def tryTail (rest : Str) : Option Str :=
  if ciPre sepPat rest then
    let p := rest.drop 8
    if p = [] then none else if p.all dotC then some p else none
  else none

/-- Lazy scan for the shortest mime capture: the engine extends the first
capture one character at a time and retries the rest of the pattern. -/
def scanMime (acc : Str) : Str → Option (Str × Str)
  | [] => none
  | c :: rest =>
    if dotC c then
      match tryTail rest with
      | some p => some (acc ++ [c], p)
      | none => scanMime (acc ++ [c]) rest
    else none

/-- Embedding of matching a trimmed input against the case-insensitive regex
anchored at both ends, with a lazy first capture; returns both captures. -/
def matchDataUrl (t : Str) : Option (Str × Str) :=
  if ciPre dataPat t then scanMime [] (t.drop 5) else none

/-- Embedding of `normalizeBase64` (first component: mimeType, second:
base64 payload). -/
def normalizeBase64 (input : Str) : Str × Str :=
  let trimmed := jsTrim input
  match matchDataUrl trimmed with
  | some (m, p) => (m, p)
  | none => (lit "image/jpeg", trimmed)

/-- A pattern matching a concrete substring character-for-character,
case-insensitively. -/
def CiMatches (pat l : Str) : Prop := pat.length = l.length ∧ ciPre pat l = true

/-- A way the regex body can match after the scheme: a non-empty mime of dot
characters, a case variant of the separator, and a non-empty payload of dot
characters reaching the end of the string. -/
def ValidSplit (rest m x p : Str) : Prop :=
  rest = m ++ x ++ p ∧ m ≠ [] ∧ m.all dotC = true ∧ CiMatches sepPat x ∧
    p ≠ [] ∧ p.all dotC = true

/-- Declarative reading of the data-URL regex matching the whole string. -/
def RawMatch (t m p : Str) : Prop :=
  ∃ d x, t = d ++ m ++ x ++ p ∧ CiMatches dataPat d ∧ CiMatches sepPat x ∧
    m ≠ [] ∧ m.all dotC = true ∧ p ≠ [] ∧ p.all dotC = true

/-- The captures the lazy regex selects: a match whose mime capture is
shortest among all matches. -/
def RegexCaptures (t m p : Str) : Prop :=
  RawMatch t m p ∧ ∀ m' p', RawMatch t m' p' → m.length ≤ m'.length

theorem ciPre_append_of_matches {pat : Str} :
    ∀ {d : Str}, CiMatches pat d → ∀ r, ciPre pat (d ++ r) = true := by
  induction pat with
  | nil =>
    intro d h r
    rfl
  | cons p ps ih =>
    intro d h r
    obtain ⟨hlen, hci⟩ := h
    cases d with
    | nil => simp at hlen
    | cons c cs =>
      simp only [ciPre, Bool.and_eq_true] at hci
      simp only [List.cons_append, ciPre, Bool.and_eq_true]
      exact ⟨hci.1, ih ⟨by simpa using hlen, hci.2⟩ r⟩

theorem ciMatches_take_of_ciPre {pat : Str} :
    ∀ {l : Str}, ciPre pat l = true → CiMatches pat (l.take pat.length) := by
  induction pat with
  | nil =>
    intro l _
    exact ⟨rfl, rfl⟩
  | cons p ps ih =>
    intro l h
    cases l with
    | nil => simp [ciPre] at h
    | cons c cs =>
      simp only [ciPre, Bool.and_eq_true] at h
      have hrec := ih h.2
      constructor
      · simp only [List.length_cons, List.take_succ_cons]
        have := hrec.1
        omega
      · simp only [List.length_cons, List.take_succ_cons, ciPre, Bool.and_eq_true]
        exact ⟨h.1, hrec.2⟩

theorem tryTail_some_iff {rest p : Str} :
    tryTail rest = some p ↔
      ∃ x, rest = x ++ p ∧ CiMatches sepPat x ∧ p ≠ [] ∧ p.all dotC = true := by
  constructor
  · intro h
    unfold tryTail at h
    by_cases hci : ciPre sepPat rest = true
    · rw [if_pos hci] at h
      simp only at h
      by_cases hp : rest.drop 8 = []
      · rw [if_pos hp] at h
        cases h
      · rw [if_neg hp] at h
        by_cases hall : (rest.drop 8).all dotC = true
        · rw [if_pos hall] at h
          injection h with h
          subst h
          refine ⟨rest.take 8, (List.take_append_drop 8 rest).symm, ?_, hp, hall⟩
          exact ciMatches_take_of_ciPre hci
        · rw [if_neg hall] at h
          cases h
    · rw [if_neg hci] at h
      cases h
  · rintro ⟨x, rfl, hx, hp, hall⟩
    have hxlen : x.length = 8 := by
      have h8 := hx.1
      simp [sepPat, lit] at h8
      omega
    unfold tryTail
    rw [if_pos (ciPre_append_of_matches hx p)]
    simp only
    have hdrop : (x ++ p).drop 8 = p := by
      rw [← hxlen]
      exact List.drop_left x p
    rw [hdrop, if_neg hp, if_pos hall]

theorem scanMime_sound :
    ∀ (rest acc m p : Str), scanMime acc rest = some (m, p) →
      ∃ m0 x, m = acc ++ m0 ∧ ValidSplit rest m0 x p := by
  intro rest
  induction rest with
  | nil =>
    intro acc m p h
    simp [scanMime] at h
  | cons c rest ih =>
    intro acc m p h
    simp only [scanMime] at h
    by_cases hd : dotC c = true
    · rw [if_pos hd] at h
      cases htt : tryTail rest with
      | some p1 =>
        rw [htt] at h
        simp only [Option.some.injEq, Prod.mk.injEq] at h
        obtain ⟨hm, hp⟩ := h
        subst hm
        subst hp
        obtain ⟨x, hre, hx, hpne, hpall⟩ := tryTail_some_iff.mp htt
        refine ⟨[c], x, rfl, ?_, by simp, by simp [hd], hx, hpne, hpall⟩
        simp [hre]
      | none =>
        rw [htt] at h
        simp only at h
        obtain ⟨m0, x, hm, hvs⟩ := ih (acc ++ [c]) m p h
        obtain ⟨hre, hm0ne, hm0dot, hx, hpne, hpdot⟩ := hvs
        refine ⟨c :: m0, x, by simp [hm], ?_, by simp, ?_, hx, hpne, hpdot⟩
        · simp [hre]
        · simp only [List.all_cons, Bool.and_eq_true]
          exact ⟨hd, hm0dot⟩
    · rw [if_neg hd] at h
      cases h

theorem scanMime_min :
    ∀ (rest acc m p : Str), scanMime acc rest = some (m, p) →
      ∀ m' x' p', ValidSplit rest m' x' p' →
        m.length ≤ acc.length + m'.length := by
  intro rest
  induction rest with
  | nil =>
    intro acc m p h
    simp [scanMime] at h
  | cons c rest ih =>
    intro acc m p h m' x' p' hvs
    obtain ⟨hre, hm'ne, hm'dot, hx', hp'ne, hp'dot⟩ := hvs
    cases m' with
    | nil => exact absurd rfl hm'ne
    | cons a m1 =>
      have hre2 : c :: rest = a :: (m1 ++ x' ++ p') := by simpa using hre
      have hac : c = a := by
        injection hre2 with h1 _
      have hrest : rest = m1 ++ x' ++ p' := by
        injection hre2 with _ h2
      subst hac
      have hdc : dotC c = true := by
        simp only [List.all_cons, Bool.and_eq_true] at hm'dot
        exact hm'dot.1
      simp only [scanMime] at h
      rw [if_pos hdc] at h
      cases htt : tryTail rest with
      | some p1 =>
        rw [htt] at h
        simp only [Option.some.injEq, Prod.mk.injEq] at h
        obtain ⟨hm, _⟩ := h
        subst hm
        simp only [List.length_append, List.length_singleton, List.length_cons,
          List.length_nil]
        omega
      | none =>
        rw [htt] at h
        simp only at h
        cases m1 with
        | nil =>
          exfalso
          have : tryTail rest = some p' := by
            apply tryTail_some_iff.mpr
            exact ⟨x', by simpa using hrest, hx', hp'ne, hp'dot⟩
          rw [htt] at this
          cases this
        | cons b m2 =>
          have hm1dot : (b :: m2).all dotC = true := by
            simp only [List.all_cons, Bool.and_eq_true] at hm'dot
            simp only [List.all_cons, Bool.and_eq_true]
            exact hm'dot.2
          have hrec := ih (acc ++ [c]) m p h (b :: m2) x' p'
            ⟨hrest, by simp, hm1dot, hx', hp'ne, hp'dot⟩
          simp only [List.length_append, List.length_singleton, List.length_cons,
            List.length_nil] at hrec ⊢
          omega

theorem scanMime_complete :
    ∀ (rest m x p : Str), ValidSplit rest m x p →
      ∀ acc, (scanMime acc rest).isSome = true := by
  intro rest
  induction rest with
  | nil =>
    intro m x p hvs acc
    obtain ⟨hre, hmne, _, _, _, _⟩ := hvs
    cases m with
    | nil => exact absurd rfl hmne
    | cons a m1 => simp at hre
  | cons c rest ih =>
    intro m x p hvs acc
    obtain ⟨hre, hmne, hmdot, hx, hpne, hpdot⟩ := hvs
    cases m with
    | nil => exact absurd rfl hmne
    | cons a m1 =>
      have hre2 : c :: rest = a :: (m1 ++ x ++ p) := by simpa using hre
      have hac : c = a := by
        injection hre2 with h1 _
      have hrest : rest = m1 ++ x ++ p := by
        injection hre2 with _ h2
      subst hac
      have hdc : dotC c = true := by
        simp only [List.all_cons, Bool.and_eq_true] at hmdot
        exact hmdot.1
      simp only [scanMime]
      rw [if_pos hdc]
      cases htt : tryTail rest with
      | some p1 => simp
      | none =>
        simp only
        cases m1 with
        | nil =>
          exfalso
          have : tryTail rest = some p := by
            apply tryTail_some_iff.mpr
            exact ⟨x, by simpa using hrest, hx, hpne, hpdot⟩
          rw [htt] at this
          cases this
        | cons b m2 =>
          have hm1dot : (b :: m2).all dotC = true := by
            simp only [List.all_cons, Bool.and_eq_true] at hmdot
            simp only [List.all_cons, Bool.and_eq_true]
            exact hmdot.2
          exact ih (b :: m2) x p ⟨hrest, by simp, hm1dot, hx, hpne, hpdot⟩ (acc ++ [c])

theorem validSplit_unique {rest m x p m' x' p' : Str}
    (h1 : ValidSplit rest m x p) (h2 : ValidSplit rest m' x' p')
    (hlen : m.length = m'.length) : m = m' ∧ p = p' := by
  obtain ⟨e1, _, _, hx1, _, _⟩ := h1
  obtain ⟨e2, _, _, hx2, _, _⟩ := h2
  rw [e1] at e2
  rw [List.append_assoc, List.append_assoc] at e2
  obtain ⟨hm, hrest⟩ := List.append_inj e2 hlen
  have hxlen : x.length = x'.length := by
    have a1 := hx1.1
    have a2 := hx2.1
    omega
  obtain ⟨_, hpp⟩ := List.append_inj hrest hxlen
  exact ⟨hm, hpp⟩

theorem rawMatch_of_validSplit {t m x p : Str} (hci : ciPre dataPat t = true)
    (hvs : ValidSplit (t.drop 5) m x p) : RawMatch t m p := by
  obtain ⟨hre, hmne, hmdot, hx, hpne, hpdot⟩ := hvs
  refine ⟨t.take 5, x, ?_, ciMatches_take_of_ciPre hci, hx, hmne, hmdot, hpne, hpdot⟩
  conv_lhs => rw [← List.take_append_drop 5 t]
  rw [hre]
  simp [List.append_assoc]

theorem rawMatch_validSplit {t m p : Str} (h : RawMatch t m p) :
    ciPre dataPat t = true ∧ ∃ x, ValidSplit (t.drop 5) m x p := by
  obtain ⟨d, x, he, hd, hx, hmne, hmdot, hpne, hpdot⟩ := h
  have hdlen : d.length = 5 := by
    have h5 := hd.1
    simp [dataPat, lit] at h5
    omega
  have hci : ciPre dataPat t = true := by
    rw [he, List.append_assoc, List.append_assoc]
    exact ciPre_append_of_matches hd _
  have hdrop : t.drop 5 = m ++ x ++ p := by
    rw [he, ← hdlen, List.append_assoc, List.append_assoc, List.drop_left]
    simp [List.append_assoc]
  exact ⟨hci, x, hdrop, hmne, hmdot, hx, hpne, hpdot⟩

theorem matchDataUrl_isSome_of_raw {t m p : Str} (h : RawMatch t m p) :
    (matchDataUrl t).isSome = true := by
  obtain ⟨hci, x, hvs⟩ := rawMatch_validSplit h
  unfold matchDataUrl
  rw [if_pos hci]
  exact scanMime_complete _ _ _ _ hvs []

theorem matchDataUrl_some_iff {t m p : Str} :
    matchDataUrl t = some (m, p) ↔ RegexCaptures t m p := by
  constructor
  · intro h
    unfold matchDataUrl at h
    by_cases hci : ciPre dataPat t = true
    · rw [if_pos hci] at h
      obtain ⟨m0, x, hm, hvs⟩ := scanMime_sound _ _ _ _ h
      simp only [List.nil_append] at hm
      subst hm
      constructor
      · exact rawMatch_of_validSplit hci hvs
      · intro m' p' hraw
        obtain ⟨_, x', hvs'⟩ := rawMatch_validSplit hraw
        have := scanMime_min _ _ _ _ h m' x' p' hvs'
        simpa using this
    · rw [if_neg hci] at h
      cases h
  · rintro ⟨hraw, hmin⟩
    obtain ⟨hci, x, hvs⟩ := rawMatch_validSplit hraw
    have hsome := matchDataUrl_isSome_of_raw hraw
    cases hmd : matchDataUrl t with
    | none =>
      rw [hmd] at hsome
      cases hsome
    | some mp =>
      obtain ⟨m2, p2⟩ := mp
      have h2 : scanMime [] (t.drop 5) = some (m2, p2) := by
        unfold matchDataUrl at hmd
        rw [if_pos hci] at hmd
        exact hmd
      obtain ⟨m0, x2, hm2, hvs2⟩ := scanMime_sound _ _ _ _ h2
      simp only [List.nil_append] at hm2
      subst hm2
      have hle1 := scanMime_min _ _ _ _ h2 m x p hvs
      have hle2 := hmin m2 p2 (rawMatch_of_validSplit hci hvs2)
      have hleq : m2.length = m.length := by
        simp only [List.length_nil, Nat.zero_add] at hle1
        omega
      obtain ⟨hmm, hpp⟩ := validSplit_unique hvs2 hvs hleq
      rw [hmm, hpp]

theorem matchDataUrl_none_iff {t : Str} :
    matchDataUrl t = none ↔ ∀ m p, ¬ RawMatch t m p := by
  constructor
  · intro h m p hraw
    have := matchDataUrl_isSome_of_raw hraw
    rw [h] at this
    cases this
  · intro h
    cases hmd : matchDataUrl t with
    | none => rfl
    | some mp =>
      obtain ⟨m, p⟩ := mp
      exact absurd (matchDataUrl_some_iff.mp hmd).1 (h m p)

/-! ### JSON parsing -/

/-- JSON values as decoded by `JSON.parse`. Number and string payloads keep
their source characters: the numeric conversion and escape decoding that
`JSON.parse` applies are functions of those characters, so equality of these
values refines structural equality of the decoded results. -/
inductive Json where
  | nullV : Json
  | boolV (b : Bool) : Json
  | numV (token : Str) : Json
  | strV (raw : Str) : Json
  | arrV (elems : List Json) : Json
  | objV (members : List (Str × Json)) : Json

/-- Skip JSON grammar whitespace. -/
def skipWs (l : Str) : Str := l.dropWhile isJsonWs

/-- Parse a string body after the opening quote, keeping the raw characters;
returns the body and the remainder after the closing quote. Escape pairs are
kept verbatim and not validated, so acceptance is a superset of the real
grammar (this only widens the set of inputs the round-trip covers). -/
def strBody (l : Str) : Option (Str × Str) :=
  match l with
  | [] => none
  | c :: rest =>
    if c == '"' then some ([], rest)
    else if c == '\\' then
      match rest with
      | [] => none
      | e :: rest2 =>
        match strBody rest2 with
        | some (b, r) => some (c :: e :: b, r)
        | none => none
    else
      match strBody rest with
      | some (b, r) => some (c :: b, r)
      | none => none

/-- Characters a JSON number token may contain. -/
def numChar (c : Char) : Bool :=
  c.isDigit || c == '.' || c == 'e' || c == 'E' || c == '+' || c == '-'

mutual

/-- Parse one JSON value; fuel bounds the recursion depth. -/
def parseValue : Nat → Str → Option (Json × Str)
  | 0, _ => none
  | Nat.succ f, l =>
    match l with
    | [] => none
    | c :: rest =>
      if c == '"' then
        match strBody rest with
        | some (b, r) => some (Json.strV b, r)
        | none => none
      else if c == '\x7b' then
        match parseMembs f (skipWs rest) with
        | some (ms, r) => some (Json.objV ms, r)
        | none => none
      else if c == '[' then
        match parseElems f (skipWs rest) with
        | some (vs, r) => some (Json.arrV vs, r)
        | none => none
      else if c == 't' then
        if startsB (lit "rue") rest then some (Json.boolV true, rest.drop 3) else none
      else if c == 'f' then
        if startsB (lit "alse") rest then some (Json.boolV false, rest.drop 4) else none
      else if c == 'n' then
        if startsB (lit "ull") rest then some (Json.nullV, rest.drop 3) else none
      else if c.isDigit || c == '-' then
        some (Json.numV ((c :: rest).takeWhile numChar), (c :: rest).dropWhile numChar)
      else none

/-- Parse array elements after the opening bracket and any whitespace. -/
def parseElems : Nat → Str → Option (List Json × Str)
  | 0, _ => none
  | Nat.succ f, l =>
    match l with
    | [] => none
    | c :: rest =>
      if c == ']' then some ([], rest)
      else
        match parseValue f l with
        | some (v, r) =>
          (match skipWs r with
           | [] => none
           | d :: r2 =>
             if d == ',' then
               match parseElems f (skipWs r2) with
               | some (vs, r3) => some (v :: vs, r3)
               | none => none
             else if d == ']' then some ([v], r2)
             else none)
        | none => none

/-- Parse object members after the opening brace and any whitespace. -/
def parseMembs : Nat → Str → Option (List (Str × Json) × Str)
  | 0, _ => none
  | Nat.succ f, l =>
    match l with
    | [] => none
    | c :: rest =>
      if c == '\x7d' then some ([], rest)
      else if c == '"' then
        match strBody rest with
        | some (k, r) =>
          (match skipWs r with
           | [] => none
           | d :: r2 =>
             if d == ':' then
               match parseValue f (skipWs r2) with
               | some (v, r3) =>
                 (match skipWs r3 with
                  | [] => none
                  | d2 :: r4 =>
                    if d2 == ',' then
                      match parseMembs f (skipWs r4) with
                      | some (ms, r5) => some ((k, v) :: ms, r5)
                      | none => none
                    else if d2 == '\x7d' then some ([(k, v)], r4)
                    else none)
               | none => none
             else none)
        | none => none
      else none

end

/-- Run the value parser expecting it to consume the whole input. -/
def parseExact (u : Str) : Option Json :=
  match parseValue (2 * u.length + 2) u with
  | some (v, []) => some v
  | _ => none

/-- Embedding of `JSON.parse`: the goal symbol is a single JSON value
surrounded by optional JSON whitespace, trimmed up front here. -/
def jsonParse (t : Str) : Option Json :=
  parseExact (jsonTrim t)

/-! ### Parser lemmas: a success consumes a non-empty token ending in a
non-whitespace character -/

theorem notWs_digit {c : Char} (h : c.isDigit = true) : isJsWs c = false := by
  by_contra hc
  rw [Bool.not_eq_false] at hc
  simp only [isJsWs, Bool.or_eq_true, beq_iff_eq] at hc
  repeat' rcases hc with hc | rfl
  all_goals first
  | (subst hc; exact absurd h (by decide))
  | exact absurd h (by decide)

theorem notWs_numChar {c : Char} (h : numChar c = true) : isJsWs c = false := by
  simp only [numChar, Bool.or_eq_true, beq_iff_eq] at h
  repeat' rcases h with h | rfl
  all_goals first
  | exact notWs_digit h
  | decide

theorem getLast?_append_right {l1 l2 : Str} (h : l2 ≠ []) :
    (l1 ++ l2).getLast? = l2.getLast? := by
  rw [List.getLast?_append]
  have hsome : ∃ c, l2.getLast? = some c := by
    cases l2 with
    | nil => exact absurd rfl h
    | cons a t =>
      clear h
      induction t generalizing a with
      | nil => exact ⟨a, rfl⟩
      | cons b t2 ih =>
        obtain ⟨c, hc⟩ := ih b
        exact ⟨c, by rw [List.getLast?_cons_cons]; exact hc⟩
  obtain ⟨c, hc⟩ := hsome
  rw [hc]
  rfl

theorem all_getLast? {p : Char → Bool} :
    ∀ {l : Str} {c : Char}, l.all p = true → l.getLast? = some c → p c = true := by
  intro l
  induction l with
  | nil =>
    intro c _ h
    cases h
  | cons a t ih =>
    intro c hall h
    cases t with
    | nil =>
      have h2 : some a = some c := h
      injection h2 with h2
      subst h2
      simpa using hall
    | cons b t2 =>
      rw [List.getLast?_cons_cons] at h
      simp only [List.all_cons, Bool.and_eq_true] at hall
      exact ih (by simp [hall.2.1, hall.2.2]) h

theorem startsB_decomp {pat l : Str} (h : startsB pat l = true) :
    l = pat ++ l.drop pat.length := by
  rcases startsB_iff.mp h with ⟨x, rfl⟩
  rw [List.drop_left]

theorem strBody_consumed_aux :
    ∀ (n : Nat) (l b r : Str), l.length ≤ n → strBody l = some (b, r) →
      l = b ++ '"' :: r := by
  intro n
  induction n with
  | zero =>
    intro l b r hlen h
    cases l with
    | nil => simp [strBody] at h
    | cons c rest => simp at hlen
  | succ n ih =>
    intro l b r hlen h
    cases l with
    | nil => simp [strBody] at h
    | cons c rest =>
      rw [strBody.eq_def] at h
      simp only at h
      by_cases hq : (c == '"') = true
      · rw [if_pos hq] at h
        simp only [Option.some.injEq, Prod.mk.injEq] at h
        obtain ⟨hb, hr⟩ := h
        subst hb
        subst hr
        have hc : c = '"' := by simpa using hq
        subst hc
        rfl
      · rw [if_neg hq] at h
        by_cases hbs : (c == '\\') = true
        · rw [if_pos hbs] at h
          cases rest with
          | nil => simp at h
          | cons e rest2 =>
            simp only at h
            cases hsb : strBody rest2 with
            | none =>
              rw [hsb] at h
              cases h
            | some br =>
              obtain ⟨b2, r2⟩ := br
              rw [hsb] at h
              simp only [Option.some.injEq, Prod.mk.injEq] at h
              obtain ⟨hb, hr⟩ := h
              subst hb
              subst hr
              have hlen2 : rest2.length ≤ n := by
                simp only [List.length_cons] at hlen
                omega
              have hrec := ih rest2 b2 r2 hlen2 hsb
              rw [hrec]
              simp
        · rw [if_neg hbs] at h
          cases hsb : strBody rest with
          | none =>
            rw [hsb] at h
            cases h
          | some br =>
            obtain ⟨b2, r2⟩ := br
            rw [hsb] at h
            simp only [Option.some.injEq, Prod.mk.injEq] at h
            obtain ⟨hb, hr⟩ := h
            subst hb
            subst hr
            have hlen2 : rest.length ≤ n := by
              simp only [List.length_cons] at hlen
              omega
            have hrec := ih rest b2 r2 hlen2 hsb
            rw [hrec]
            simp

theorem strBody_consumed {l b r : Str} (h : strBody l = some (b, r)) :
    l = b ++ '"' :: r :=
  strBody_consumed_aux l.length l b r le_rfl h

/-- A parse step consumed a non-empty prefix whose last character is not
JavaScript whitespace. -/
def ConsumedTok (l r : Str) : Prop :=
  ∃ x, l = x ++ r ∧ x ≠ [] ∧ ∀ c, x.getLast? = some c → isJsWs c = false

theorem consumedTok_of_split {x : Str} {d : Char} {r : Str} (hd : isJsWs d = false) :
    ConsumedTok (x ++ d :: r) r := by
  refine ⟨x ++ [d], by simp, by simp, ?_⟩
  intro c hc
  rw [List.getLast?_concat] at hc
  injection hc with hc
  subst hc
  exact hd

theorem consumedTok_skipWs {m r : Str} (h : ConsumedTok (skipWs m) r) :
    ConsumedTok m r := by
  obtain ⟨x, he, hne, hlast⟩ := h
  obtain ⟨w, hw, _⟩ := exists_dropWhile_decomp isJsonWs m
  refine ⟨w ++ x, ?_, ?_, ?_⟩
  · rw [hw]
    unfold skipWs at he
    rw [he, List.append_assoc]
  · intro habs
    exact hne (List.append_eq_nil.mp habs).2
  · intro c hc
    rw [getLast?_append_right hne] at hc
    exact hlast c hc

theorem consumedTok_trans {l mid r : Str} (h1 : ∃ x, l = x ++ mid)
    (h2 : ConsumedTok mid r) : ConsumedTok l r := by
  obtain ⟨x, rfl⟩ := h1
  obtain ⟨y, hy, hne, hlast⟩ := h2
  refine ⟨x ++ y, ?_, ?_, ?_⟩
  · rw [hy, List.append_assoc]
  · intro habs
    exact hne (List.append_eq_nil.mp habs).2
  · intro c hc
    rw [getLast?_append_right hne] at hc
    exact hlast c hc

theorem consumedTok_cons {c : Char} {l r : Str} (h : ConsumedTok l r) :
    ConsumedTok (c :: l) r :=
  consumedTok_trans ⟨[c], rfl⟩ h

theorem consumedTok_pre {l r : Str} (h : ConsumedTok l r) : ∃ x, l = x ++ r := by
  obtain ⟨x, hx, _, _⟩ := h
  exact ⟨x, hx⟩

theorem parseValue_head {f : Nat} {l : Str} {v : Json} {r : Str}
    (h : parseValue f l = some (v, r)) :
    ∃ c rest, l = c :: rest ∧ isJsWs c = false := by
  cases f with
  | zero => cases h
  | succ f =>
    cases l with
    | nil => cases h
    | cons c rest =>
      refine ⟨c, rest, rfl, ?_⟩
      simp only [parseValue] at h
      by_cases h1 : (c == '"') = true
      · have hc : c = '"' := by simpa using h1
        subst hc
        decide
      · rw [if_neg h1] at h
        by_cases h2 : (c == '\x7b') = true
        · have hc : c = '\x7b' := by simpa using h2
          subst hc
          decide
        · rw [if_neg h2] at h
          by_cases h3 : (c == '[') = true
          · have hc : c = '[' := by simpa using h3
            subst hc
            decide
          · rw [if_neg h3] at h
            by_cases h4 : (c == 't') = true
            · have hc : c = 't' := by simpa using h4
              subst hc
              decide
            · rw [if_neg h4] at h
              by_cases h5 : (c == 'f') = true
              · have hc : c = 'f' := by simpa using h5
                subst hc
                decide
              · rw [if_neg h5] at h
                by_cases h6 : (c == 'n') = true
                · have hc : c = 'n' := by simpa using h6
                  subst hc
                  decide
                · rw [if_neg h6] at h
                  by_cases h7 : (c.isDigit || c == '-') = true
                  · rw [Bool.or_eq_true] at h7
                    rcases h7 with hd | hdash
                    · exact notWs_digit hd
                    · have hc : c = '-' := by simpa using hdash
                      subst hc
                      decide
                  · rw [if_neg h7] at h
                    cases h

theorem parse_consumed :
    ∀ f : Nat,
      (∀ l v r, parseValue f l = some (v, r) → ConsumedTok l r) ∧
      (∀ l vs r, parseElems f l = some (vs, r) → ConsumedTok l r) ∧
      (∀ l ms r, parseMembs f l = some (ms, r) → ConsumedTok l r) := by
  intro f
  induction f with
  | zero =>
    refine ⟨?_, ?_, ?_⟩ <;> (intro l a r h; cases h)
  | succ f ih =>
    obtain ⟨ihV, ihE, ihM⟩ := ih
    refine ⟨?_, ?_, ?_⟩
    · -- parseValue
      intro l v r h
      cases l with
      | nil => cases h
      | cons c rest =>
        simp only [parseValue] at h
        by_cases h1 : (c == '"') = true
        · rw [if_pos h1] at h
          cases hsb : strBody rest with
          | none =>
            rw [hsb] at h
            cases h
          | some br =>
            obtain ⟨b, r2⟩ := br
            rw [hsb] at h
            simp only [Option.some.injEq, Prod.mk.injEq] at h
            obtain ⟨_, hr⟩ := h
            subst hr
            have hc := strBody_consumed hsb
            have hsplit : c :: rest = (c :: b) ++ '"' :: r2 := by
              rw [hc]
              simp
            rw [hsplit]
            exact consumedTok_of_split (by decide)
        · rw [if_neg h1] at h
          by_cases h2 : (c == '\x7b') = true
          · rw [if_pos h2] at h
            cases hpm : parseMembs f (skipWs rest) with
            | none =>
              rw [hpm] at h
              cases h
            | some mr =>
              obtain ⟨ms, r2⟩ := mr
              rw [hpm] at h
              simp only [Option.some.injEq, Prod.mk.injEq] at h
              obtain ⟨_, hr⟩ := h
              subst hr
              exact consumedTok_cons (consumedTok_skipWs (ihM _ _ _ hpm))
          · rw [if_neg h2] at h
            by_cases h3 : (c == '[') = true
            · rw [if_pos h3] at h
              cases hpe : parseElems f (skipWs rest) with
              | none =>
                rw [hpe] at h
                cases h
              | some er =>
                obtain ⟨es, r2⟩ := er
                rw [hpe] at h
                simp only [Option.some.injEq, Prod.mk.injEq] at h
                obtain ⟨_, hr⟩ := h
                subst hr
                exact consumedTok_cons (consumedTok_skipWs (ihE _ _ _ hpe))
            · rw [if_neg h3] at h
              by_cases h4 : (c == 't') = true
              · rw [if_pos h4] at h
                by_cases hs : startsB (lit "rue") rest = true
                · rw [if_pos hs] at h
                  simp only [Option.some.injEq, Prod.mk.injEq] at h
                  obtain ⟨_, hr⟩ := h
                  subst hr
                  have hdec := startsB_decomp hs
                  have hsplit : c :: rest = (c :: ['r', 'u']) ++ 'e' :: rest.drop 3 := by
                    conv_lhs => rw [hdec]
                    rfl
                  rw [hsplit]
                  exact consumedTok_of_split (by decide)
                · rw [if_neg hs] at h
                  cases h
              · rw [if_neg h4] at h
                by_cases h5 : (c == 'f') = true
                · rw [if_pos h5] at h
                  by_cases hs : startsB (lit "alse") rest = true
                  · rw [if_pos hs] at h
                    simp only [Option.some.injEq, Prod.mk.injEq] at h
                    obtain ⟨_, hr⟩ := h
                    subst hr
                    have hdec := startsB_decomp hs
                    have hsplit : c :: rest =
                        (c :: ['a', 'l', 's']) ++ 'e' :: rest.drop 4 := by
                      conv_lhs => rw [hdec]
                      rfl
                    rw [hsplit]
                    exact consumedTok_of_split (by decide)
                  · rw [if_neg hs] at h
                    cases h
                · rw [if_neg h5] at h
                  by_cases h6 : (c == 'n') = true
                  · rw [if_pos h6] at h
                    by_cases hs : startsB (lit "ull") rest = true
                    · rw [if_pos hs] at h
                      simp only [Option.some.injEq, Prod.mk.injEq] at h
                      obtain ⟨_, hr⟩ := h
                      subst hr
                      have hdec := startsB_decomp hs
                      have hsplit : c :: rest =
                          (c :: ['u', 'l']) ++ 'l' :: rest.drop 3 := by
                        conv_lhs => rw [hdec]
                        rfl
                      rw [hsplit]
                      exact consumedTok_of_split (by decide)
                    · rw [if_neg hs] at h
                      cases h
                  · rw [if_neg h6] at h
                    by_cases h7 : (c.isDigit || c == '-') = true
                    · rw [if_pos h7] at h
                      simp only [Option.some.injEq, Prod.mk.injEq] at h
                      obtain ⟨_, hr⟩ := h
                      subst hr
                      have hnc : numChar c = true := by
                        rw [Bool.or_eq_true] at h7
                        rcases h7 with hd | hdash
                        · simp [numChar, hd]
                        · simp [numChar, hdash]
                      refine ⟨(c :: rest).takeWhile numChar,
                        (List.takeWhile_append_dropWhile (p := numChar)
                          (l := c :: rest)).symm, ?_, ?_⟩
                      · rw [List.takeWhile_cons, hnc]
                        simp
                      · intro d hd
                        exact notWs_numChar (all_getLast? List.all_takeWhile hd)
                    · rw [if_neg h7] at h
                      cases h
    · -- parseElems
      intro l vs r h
      cases l with
      | nil => cases h
      | cons c rest =>
        simp only [parseElems] at h
        by_cases h1 : (c == ']') = true
        · rw [if_pos h1] at h
          simp only [Option.some.injEq, Prod.mk.injEq] at h
          obtain ⟨_, hr⟩ := h
          subst hr
          have hc : c = ']' := by simpa using h1
          subst hc
          refine ⟨[']'], rfl, by simp, ?_⟩
          intro d hd
          injection hd with hd
          subst hd
          decide
        · rw [if_neg h1] at h
          cases hpv : parseValue f (c :: rest) with
          | none =>
            rw [hpv] at h
            cases h
          | some vr =>
            obtain ⟨v, r1⟩ := vr
            rw [hpv] at h
            simp only at h
            have hcv := ihV _ _ _ hpv
            cases hsw : skipWs r1 with
            | nil =>
              rw [hsw] at h
              cases h
            | cons d r2 =>
              rw [hsw] at h
              simp only at h
              obtain ⟨w1, hw1, _⟩ := exists_dropWhile_decomp isJsonWs r1
              have hr1 : r1 = w1 ++ d :: r2 := by
                rw [← hsw]
                exact hw1
              by_cases hd1 : (d == ',') = true
              · rw [if_pos hd1] at h
                cases hpe : parseElems f (skipWs r2) with
                | none =>
                  rw [hpe] at h
                  cases h
                | some er =>
                  obtain ⟨vs3, r3⟩ := er
                  rw [hpe] at h
                  simp only [Option.some.injEq, Prod.mk.injEq] at h
                  obtain ⟨_, hr⟩ := h
                  subst hr
                  have hce := consumedTok_skipWs (ihE _ _ _ hpe)
                  have hmid : ConsumedTok r1 r3 :=
                    consumedTok_trans ⟨w1 ++ [d], by rw [hr1]; simp⟩ hce
                  exact consumedTok_trans (consumedTok_pre hcv) hmid
              · rw [if_neg hd1] at h
                by_cases hd2 : (d == ']') = true
                · rw [if_pos hd2] at h
                  simp only [Option.some.injEq, Prod.mk.injEq] at h
                  obtain ⟨_, hr⟩ := h
                  subst hr
                  have hdv : d = ']' := by simpa using hd2
                  subst hdv
                  have hmid : ConsumedTok r1 r2 := by
                    rw [hr1]
                    exact consumedTok_of_split (by decide)
                  exact consumedTok_trans (consumedTok_pre hcv) hmid
                · rw [if_neg hd2] at h
                  cases h
    · -- parseMembs
      intro l ms r h
      cases l with
      | nil => cases h
      | cons c rest =>
        simp only [parseMembs] at h
        by_cases h1 : (c == '\x7d') = true
        · rw [if_pos h1] at h
          simp only [Option.some.injEq, Prod.mk.injEq] at h
          obtain ⟨_, hr⟩ := h
          subst hr
          have hc : c = '\x7d' := by simpa using h1
          subst hc
          refine ⟨['\x7d'], rfl, by simp, ?_⟩
          intro d hd
          injection hd with hd
          subst hd
          decide
        · rw [if_neg h1] at h
          by_cases h2 : (c == '"') = true
          · rw [if_pos h2] at h
            cases hsb : strBody rest with
            | none =>
              rw [hsb] at h
              cases h
            | some kr =>
              obtain ⟨k, r1⟩ := kr
              rw [hsb] at h
              simp only at h
              have hkey := strBody_consumed hsb
              have hpre0 : ∃ x, c :: rest = x ++ r1 := by
                refine ⟨(c :: k) ++ ['"'], ?_⟩
                rw [hkey]
                simp
              cases hsw : skipWs r1 with
              | nil =>
                rw [hsw] at h
                cases h
              | cons d r2 =>
                rw [hsw] at h
                simp only at h
                obtain ⟨w1, hw1, _⟩ := exists_dropWhile_decomp isJsonWs r1
                have hr1 : r1 = w1 ++ d :: r2 := by
                  rw [← hsw]
                  exact hw1
                by_cases hd1 : (d == ':') = true
                · rw [if_pos hd1] at h
                  cases hpv : parseValue f (skipWs r2) with
                  | none =>
                    rw [hpv] at h
                    cases h
                  | some vr =>
                    obtain ⟨v, r3⟩ := vr
                    rw [hpv] at h
                    simp only at h
                    have hcv := consumedTok_skipWs (ihV _ _ _ hpv)
                    cases hsw2 : skipWs r3 with
                    | nil =>
                      rw [hsw2] at h
                      cases h
                    | cons d2 r4 =>
                      rw [hsw2] at h
                      simp only at h
                      obtain ⟨w3, hw3, _⟩ := exists_dropWhile_decomp isJsonWs r3
                      have hr3 : r3 = w3 ++ d2 :: r4 := by
                        rw [← hsw2]
                        exact hw3
                      by_cases hd2c : (d2 == ',') = true
                      · rw [if_pos hd2c] at h
                        cases hpm : parseMembs f (skipWs r4) with
                        | none =>
                          rw [hpm] at h
                          cases h
                        | some mr =>
                          obtain ⟨ms5, r5⟩ := mr
                          rw [hpm] at h
                          simp only [Option.some.injEq, Prod.mk.injEq] at h
                          obtain ⟨_, hr⟩ := h
                          subst hr
                          have hcm := consumedTok_skipWs (ihM _ _ _ hpm)
                          have hc3 : ConsumedTok r3 r5 :=
                            consumedTok_trans ⟨w3 ++ [d2], by rw [hr3]; simp⟩ hcm
                          have hc2 : ConsumedTok r2 r5 :=
                            consumedTok_trans (consumedTok_pre hcv) hc3
                          have hc1 : ConsumedTok r1 r5 :=
                            consumedTok_trans ⟨w1 ++ [d], by rw [hr1]; simp⟩ hc2
                          exact consumedTok_trans hpre0 hc1
                      · rw [if_neg hd2c] at h
                        by_cases hd2b : (d2 == '\x7d') = true
                        · rw [if_pos hd2b] at h
                          simp only [Option.some.injEq, Prod.mk.injEq] at h
                          obtain ⟨_, hr⟩ := h
                          subst hr
                          have hdv : d2 = '\x7d' := by simpa using hd2b
                          subst hdv
                          have hc3 : ConsumedTok r3 r4 := by
                            rw [hr3]
                            exact consumedTok_of_split (by decide)
                          have hc2 : ConsumedTok r2 r4 :=
                            consumedTok_trans (consumedTok_pre hcv) hc3
                          have hc1 : ConsumedTok r1 r4 :=
                            consumedTok_trans ⟨w1 ++ [d], by rw [hr1]; simp⟩ hc2
                          exact consumedTok_trans hpre0 hc1
                        · rw [if_neg hd2b] at h
                          cases h
                · rw [if_neg hd1] at h
                  cases h
          · rw [if_neg h2] at h
            cases h

theorem rdrop_decomp (p : Char → Bool) (l : Str) :
    ∃ w, l = rdrop p l ++ w ∧ ∀ c ∈ w, p c = true := by
  refine ⟨(l.reverse.takeWhile p).reverse, ?_, ?_⟩
  · unfold rdrop
    conv_lhs => rw [← List.reverse_reverse l,
      ← List.takeWhile_append_dropWhile (p := p) (l := l.reverse)]
    rw [List.reverse_append]
  · intro c hc
    rw [List.mem_reverse] at hc
    exact List.mem_takeWhile_imp hc

theorem rdrop_eq_nil_of_all {p : Char → Bool} {w : Str}
    (h : ∀ c ∈ w, p c = true) : rdrop p w = [] := by
  unfold rdrop
  rw [List.dropWhile_eq_nil_iff.mpr ?_]
  · rfl
  · intro c hc
    exact h c (List.mem_reverse.mp hc)

theorem jsonTrim_decomp (s : Str) :
    ∃ wa wb, s = wa ++ jsonTrim s ++ wb ∧
      (∀ c ∈ wa, isJsonWs c = true) ∧ (∀ c ∈ wb, isJsonWs c = true) := by
  obtain ⟨wa, hwa, hwaall⟩ := exists_dropWhile_decomp isJsonWs s
  obtain ⟨wb, hwb, hwball⟩ := rdrop_decomp isJsonWs (s.dropWhile isJsonWs)
  refine ⟨wa, wb, ?_, hwaall, hwball⟩
  conv_lhs => rw [hwa]
  conv_lhs => rw [hwb]
  rw [List.append_assoc]
  rfl

theorem notJsonWs_of_notJsWs {c : Char} (h : isJsWs c = false) : isJsonWs c = false := by
  by_contra hc
  rw [Bool.not_eq_false] at hc
  rw [jsonWs_imp_jsWs hc] at h
  cases h

/-- A successful `JSON.parse` is unchanged when the input is trimmed with the
wider JavaScript whitespace set: the parsed core ends in token characters. -/
theorem jsonParse_jsTrim {s : Str} {v : Json} (h : jsonParse s = some v) :
    jsonParse (jsTrim s) = some v := by
  unfold jsonParse parseExact at h
  cases hpv : parseValue (2 * (jsonTrim s).length + 2) (jsonTrim s) with
  | none =>
    rw [hpv] at h
    cases h
  | some vr =>
    obtain ⟨v2, r2⟩ := vr
    rw [hpv] at h
    cases r2 with
    | cons a t => simp at h
    | nil =>
      simp only [Option.some.injEq] at h
      subst h
      obtain ⟨c, rest, hcr, hhead⟩ := parseValue_head hpv
      obtain ⟨x, hx, hxne, hxlast⟩ := (parse_consumed _).1 _ _ _ hpv
      rw [List.append_nil] at hx
      have hxlast' : ∀ c, (jsonTrim s).getLast? = some c → isJsWs c = false := by
        rw [hx]
        exact hxlast
      have hlastWs : ∀ c' t', (jsonTrim s).reverse = c' :: t' → isJsWs c' = false := by
        intro c' t' hrev
        apply hxlast'
        have hrw : jsonTrim s = t'.reverse ++ [c'] := by
          rw [← List.reverse_reverse (jsonTrim s), hrev, List.reverse_cons]
        rw [hrw, List.getLast?_concat]
      have hheadWs : ∀ c' t', jsonTrim s = c' :: t' → isJsWs c' = false := by
        intro c' t' hct
        rw [hcr] at hct
        injection hct with h1 _
        rw [← h1]
        exact hhead
      obtain ⟨wa, wb, hs, hwa, hwb⟩ := jsonTrim_decomp s
      have hh2 : ∀ c' t', jsonTrim s ++ wb = c' :: t' → isJsWs c' = false := by
        intro c' t' hct
        cases hjc : jsonTrim s with
        | nil =>
          rw [hjc] at hx
          exact absurd hx.symm hxne
        | cons cx tx =>
          rw [hjc, List.cons_append] at hct
          injection hct with h1 _
          rw [← h1]
          exact hheadWs cx tx hjc
      have hjt : jsTrim s = jsonTrim s := by
        conv_lhs => rw [hs]
        unfold jsTrim
        rw [List.append_assoc,
          dropWhile_append_of_all (fun c hc => jsonWs_imp_jsWs (hwa c hc)),
          dropWhile_eq_self_of_head hh2, rdrop_append,
          if_pos (rdrop_eq_nil_of_all (fun c hc => jsonWs_imp_jsWs (hwb c hc))),
          rdrop_eq_self_of_last hlastWs]
      have hjx : jsonTrim (jsonTrim s) = jsonTrim s := by
        have hd1 : (jsonTrim s).dropWhile isJsonWs = jsonTrim s :=
          dropWhile_eq_self_of_head
            (fun c' t' hct => notJsonWs_of_notJsWs (hheadWs c' t' hct))
        have hd2 : rdrop isJsonWs (jsonTrim s) = jsonTrim s :=
          rdrop_eq_self_of_last
            (fun c' t' hct => notJsonWs_of_notJsWs (hlastWs c' t' hct))
        show rdrop isJsonWs ((jsonTrim s).dropWhile isJsonWs) = jsonTrim s
        rw [hd1, hd2]
      unfold jsonParse parseExact
      rw [hjt, hjx, hpv]

/-! ### JavaScript request values -/

/-- JavaScript values reaching the handlers through a parsed JSON body
(numbers as integers: parsed JSON in these requests carries no fractions,
and the only falsy number is 0). -/
inductive JsVal where
  | undef : JsVal
  | nullV : JsVal
  | boolV (b : Bool) : JsVal
  | numV (n : Int) : JsVal
  | strV (s : Str) : JsVal
  | arrV (xs : List JsVal) : JsVal
  | objV (fields : List (Str × JsVal)) : JsVal

/-- JavaScript truthiness. -/
def truthy : JsVal → Bool
  | .undef => false
  | .nullV => false
  | .boolV b => b
  | .numV n => !(n == 0)
  | .strV s => !s.isEmpty
  | .arrV _ => true
  | .objV _ => true

/-- Join already-stringified pieces with a separator. -/
def sepJoin (sep : Str) : List Str → Str
  | [] => []
  | [x] => x
  | x :: rest => x ++ sep ++ sepJoin sep rest

mutual

/-- JavaScript ToString as applied by template interpolation. -/
def toStr : JsVal → Str
  | .undef => lit "undefined"
  | .nullV => lit "null"
  | .boolV true => lit "true"
  | .boolV false => lit "false"
  | .numV n => (toString n).toList
  | .strV s => s
  | .objV _ => lit "[object Object]"
  | .arrV xs => sepJoin (lit ",") (toStrList xs)

/-- Stringify array elements; null and undefined elements become empty, as in
`Array.prototype.join`. -/
def toStrList : List JsVal → List Str
  | [] => []
  | x :: xs =>
    (match x with
     | .undef => []
     | .nullV => []
     | _ => toStr x) :: toStrList xs

end

/-- `Array.prototype.join` with a separator. -/
def jsJoin (sep : Str) (xs : List JsVal) : Str :=
  sepJoin sep (xs.map fun x =>
    match x with
    | .undef => []
    | .nullV => []
    | _ => toStr x)

/-- Property access `v.k` (duplicate keys resolve to the last occurrence, as
after `JSON.parse`; access on non-objects yields undefined — the handlers
never reach a throwing access on the paths modelled here). -/
def jsGet (v : JsVal) (k : Str) : JsVal :=
  match v with
  | .objV fields =>
    match (fields.reverse).find? (fun kv => kv.1 == k) with
    | some kv => kv.2
    | none => .undef
  | _ => JsVal.undef

/-- JavaScript `a || b`. -/
def jsOr (a b : JsVal) : JsVal := if truthy a then a else b

/-- JavaScript `a ?? b`. -/
def nullish (a b : JsVal) : JsVal :=
  match a with
  | .undef => b
  | .nullV => b
  | _ => a

/-- ASCII lowercasing of a header value (`String.prototype.toLowerCase`
restricted to the ASCII range used by HTTP header values). -/
def asciiLower (s : Str) : Str := s.map Char.toLower

/-- Embedding of `String.prototype.includes`. -/
def containsSub (pat l : Str) : Bool :=
  match l with
  | [] => startsB pat []
  | c :: t => startsB pat (c :: t) || containsSub pat t

/-! ### Prompt building (`skinAnalysis` and `analyzePhoto`) -/

/-- The strict-equality test `language === "fr"`. -/
def isFr (langV : JsVal) : Bool :=
  match langV with
  | .strV s => s == lit "fr"
  | _ => false

/-- An optional profile field interpolated with a fallback (`field || alt`). -/
def fieldSlot (v : JsVal) (alt : Str) : Str :=
  if truthy v then toStr v else alt

/-- The concerns slot: an array is joined, otherwise the value or fallback. -/
def concernsSlot (c : JsVal) (alt : Str) : Str :=
  match c with
  | .arrV xs => jsJoin (lit ", ") xs
  | v => if truthy v then toStr v else alt

/-- The per-language placeholder for an absent simple field. -/
def notSpec (fr : Bool) : Str :=
  if fr then lit "Non spécifié" else lit "Not specified"

/-- The per-language placeholder for absent concerns. -/
def noConcerns (fr : Bool) : Str :=
  if fr then lit "Aucune" else lit "None"

/-- The per-language photo notice line. -/
def photoNotice (fr : Bool) : Str :=
  if fr then lit "Photo de peau fournie pour analyse visuelle."
  else lit "Skin photo provided for visual analysis."

/-- Embedding of the user prompt template of `skinAnalysis`. -/
def userPrompt (languageV profileV photoDataV : JsVal) : Str :=
  if isFr languageV then
    lit "Analyse ce profil de peau et génère des recommandations personnalisées:\n\nType de peau: " ++
    fieldSlot (jsGet profileV (lit "skinType")) (lit "Non spécifié") ++
    lit "\nPréoccupations: " ++
    concernsSlot (jsGet profileV (lit "concerns")) (lit "Aucune") ++
    lit "\nTranche d'âge: " ++
    fieldSlot (jsGet profileV (lit "ageRange")) (lit "Non spécifié") ++
    lit "\nExposition au soleil: " ++
    fieldSlot (jsGet profileV (lit "sunExposure")) (lit "Non spécifié") ++
    lit "\nRoutine actuelle: " ++
    fieldSlot (jsGet profileV (lit "currentRoutine")) (lit "Non spécifié") ++
    lit "\n" ++
    (if truthy photoDataV then lit "Photo de peau fournie pour analyse visuelle." else []) ++
    lit "\n\nGénère une analyse complète avec:\n- Un score de santé de la peau (0-100)\n- Un résumé personnalisé\n- 3-4 recommandations prioritaires\n- Une routine matin (4-5 étapes)\n- Une routine soir (4-5 étapes)\n- 5-6 ingrédients recommandés (avec précautions pour peaux riches en mélanine)"
  else
    lit "Analyze this skin profile and generate personalized recommendations:\n\nSkin Type: " ++
    fieldSlot (jsGet profileV (lit "skinType")) (lit "Not specified") ++
    lit "\nConcerns: " ++
    concernsSlot (jsGet profileV (lit "concerns")) (lit "None") ++
    lit "\nAge Range: " ++
    fieldSlot (jsGet profileV (lit "ageRange")) (lit "Not specified") ++
    lit "\nSun Exposure: " ++
    fieldSlot (jsGet profileV (lit "sunExposure")) (lit "Not specified") ++
    lit "\nCurrent Routine: " ++
    fieldSlot (jsGet profileV (lit "currentRoutine")) (lit "Not specified") ++
    lit "\n" ++
    (if truthy photoDataV then lit "Skin photo provided for visual analysis." else []) ++
    lit "\n\nGenerate a complete analysis with:\n- A skin health score (0-100)\n- A personalized summary\n- 3-4 priority recommendations\n- A morning routine (4-5 steps)\n- An evening routine (4-5 steps)\n- 5-6 recommended ingredients (with cautions for melanin-rich skin)"

/-- Embedding of the system prompt template of `skinAnalysis` (JSON braces in
the template text are written as hex escapes). -/
def systemPrompt (languageV : JsVal) : Str :=
  if isFr languageV then
    lit "Tu es un dermatologue expert spécialisé dans les soins des peaux riches en mélanine. Analyse le profil de peau fourni et génère des recommandations personnalisées de soins.\n\nIMPORTANT: Réponds UNIQUEMENT avec un objet JSON valide, sans texte supplémentaire, sans backticks, sans \"json\" au début. Le format doit être:\n\n\x7b\n  \"skinType\": \"le type de peau\",\n  \"concerns\": [\"liste\", \"des\", \"préoccupations\"],\n  \"overallScore\": 85,\n  \"summary\": \"Résumé personnalisé de l'analyse\",\n  \"recommendations\": [\n    \x7b\"title\": \"Titre\", \"description\": \"Description détaillée\", \"priority\": \"high|medium|low\"\x7d\n  ],\n  \"morningRoutine\": [\n    \x7b\"step\": 1, \"product\": \"Produit\", \"instructions\": \"Instructions\", \"timing\": \"Durée\"\x7d\n  ],\n  \"eveningRoutine\": [\n    \x7b\"step\": 1, \"product\": \"Produit\", \"instructions\": \"Instructions\", \"timing\": \"Durée\"\x7d\n  ],\n  \"ingredients\": [\n    \x7b\"name\": \"Ingrédient\", \"benefit\": \"Bénéfice\", \"safeForMelaninRich\": true, \"caution\": \"optionnel\"\x7d\n  ]\n\x7d"
  else
    lit "You are an expert dermatologist specializing in melanin-rich skin care. Analyze the provided skin profile and generate personalized skincare recommendations.\n\nIMPORTANT: Respond ONLY with a valid JSON object, no additional text, no backticks, no \"json\" prefix. The format must be:\n\n\x7b\n  \"skinType\": \"the skin type\",\n  \"concerns\": [\"list\", \"of\", \"concerns\"],\n  \"overallScore\": 85,\n  \"summary\": \"Personalized analysis summary\",\n  \"recommendations\": [\n    \x7b\"title\": \"Title\", \"description\": \"Detailed description\", \"priority\": \"high|medium|low\"\x7d\n  ],\n  \"morningRoutine\": [\n    \x7b\"step\": 1, \"product\": \"Product\", \"instructions\": \"Instructions\", \"timing\": \"Duration\"\x7d\n  ],\n  \"eveningRoutine\": [\n    \x7b\"step\": 1, \"product\": \"Product\", \"instructions\": \"Instructions\", \"timing\": \"Duration\"\x7d\n  ],\n  \"ingredients\": [\n    \x7b\"name\": \"Ingredient\", \"benefit\": \"Benefit\", \"safeForMelaninRich\": true, \"caution\": \"optional\"\x7d\n  ]\n\x7d"

/-- The built-in template of `analyzePhoto` with the language name rendered. -/
def photoTemplate (langV : JsVal) : Str :=
  lit "You are a premium cosmetic beauty coach specialized in melanin-rich skin.\nAnalyze the selfie for cosmetic insights only (NOT medical diagnosis). Be specific and actionable.\nReturn concise, structured recommendations (cleanser/treatment/moisturizer/SPF + 1-2 weekly actions) and include safety cautions for irritation/PIH risk.\nWrite in " ++
  (if isFr langV then lit "French" else lit "English") ++ lit "."

/-- Embedding of the `basePrompt` selection of `analyzePhoto`: a caller
prompt that is a string with non-empty trimmed content is used trimmed,
otherwise the built-in template. -/
def basePromptF (promptV langV : JsVal) : Str :=
  match promptV with
  | .strV s => if !(jsTrim s).isEmpty then jsTrim s else photoTemplate langV
  | _ => photoTemplate langV

/-! ### The HTTP handlers -/

/-- The response bodies the handlers produce. -/
inductive RespBody where
  | errB (msg : Str) : RespBody
  | okText (t : Str) : RespBody
  | jsonB (v : Json) : RespBody

/-- The content sent to the model: the text part and an optional inline image
part (mimeType, base64 data). A handler result carries this as evidence of
whether and with what content the model was invoked. -/
abbrev ModelCall := Str × Option (Str × Str)

/-- The request-time error for a missing API key. -/
def geminiKeyMsg : Str :=
  lit "Missing GEMINI_API_KEY. Set it with: npx firebase-tools functions:config:set gemini.key=\"...\" then redeploy, OR set env var in runtime."

/-- The model content `skinAnalysis` builds: system and user prompt joined by
a blank line, and the normalised photo when one was supplied as a string. -/
def skinModelCall (languageV profileV photoDataV : JsVal) : ModelCall :=
  (systemPrompt languageV ++ lit "\n\n" ++ userPrompt languageV profileV photoDataV,
   match photoDataV with
   | .strV s => if !s.isEmpty then some (normalizeBase64 s) else none
   | _ => none)

/-- The destructuring default `language = "en"`. -/
def langDefault (languageRawV : JsVal) : JsVal :=
  match languageRawV with
  | .undef => JsVal.strV (lit "en")
  | v => v

/-- Embedding of the `skinAnalysis` handler, parameterised by the text the
model returns; the second component records the model call, none when the
request was rejected before any model call. -/
def skinAnalysisHandler (method contentType : Str)
    (profileV languageRawV photoDataV : JsVal)
    (apiKeyOk : Bool) (modelText : Str) : (Nat × RespBody) × Option ModelCall :=
  if !(method == lit "POST") then
    ((405, .errB (lit "Method not allowed. Use POST.")), none)
  else if !(containsSub (lit "application/json") (asciiLower contentType)) then
    ((415, .errB (lit "Unsupported content-type. Use application/json.")), none)
  else
    let language := langDefault languageRawV
    if !(truthy profileV) then
      ((400, .errB (lit "Missing profile data.")), none)
    else if !apiKeyOk then
      ((500, .errB geminiKeyMsg), none)
    else
      let call := skinModelCall language profileV photoDataV
      if modelText.isEmpty then
        ((502, .errB (lit "Empty response from AI model.")), some call)
      else
        match jsonParse (cleanFence modelText) with
        | some v => ((200, .jsonB v), some call)
        | none => ((502, .errB (lit "Invalid AI response format.")), some call)

/-- Embedding of the `analyzePhoto` handler, parameterised like
`skinAnalysisHandler`. -/
def analyzePhotoHandler (method contentType : Str)
    (imageV promptV langV : JsVal) (apiKeyOk : Bool) (modelText : Str) :
    (Nat × RespBody) × Option ModelCall :=
  if !(method == lit "POST") then
    ((405, .errB (lit "Method not allowed. Use POST.")), none)
  else if !(containsSub (lit "application/json") (asciiLower contentType)) then
    ((415, .errB (lit "Unsupported content-type. Use application/json.")), none)
  else
    match imageV with
    | .strV s =>
      if s.isEmpty then
        ((400, .errB (lit "Missing imageBase64 (string).")), none)
      else if 8000000 < s.length then
        ((413, .errB (lit "Image too large. Please upload a smaller image.")), none)
      else if !apiKeyOk then
        ((500, .errB geminiKeyMsg), none)
      else
        let call : ModelCall := (basePromptF promptV langV, some (normalizeBase64 s))
        if modelText.isEmpty then
          ((502, .errB (lit "Empty response from AI model.")), some call)
        else
          ((200, .okText modelText), some call)
    | _ => ((400, .errB (lit "Missing imageBase64 (string).")), none)

/-! ### The client check-in operation -/

/-- What the client observes of one `fetch` call. -/
structure FetchResp where
  ok : Bool
  status : Nat
  statusText : Str
  jsonBody : Option JsVal

/-- The external shape the check-in flow expects. -/
structure CheckInOut where
  overall_score : JsVal
  summary : JsVal
  detected_concerns : JsVal
  ai_notes : JsVal

/-- The photo selection of `analyzeCheckInPhotos`: first truthy of front,
left profile, right profile. -/
def selectPhoto (front leftP rightP : JsVal) : JsVal :=
  jsOr front (jsOr leftP rightP)

/-- Digits of a status code as characters. -/
def natToStr (n : Nat) : Str := (toString n).toList

/-- The error message for a failed check-in response. -/
def checkInError (resp : FetchResp) : Str :=
  match resp.jsonBody with
  | some ed =>
    let m := jsGet ed (lit "error")
    if truthy m then toStr m else lit "Failed to analyze check-in photos"
  | none =>
    lit "Failed to analyze check-in photos (" ++ natToStr resp.status ++
      lit " " ++ resp.statusText ++ lit ")"

/-- What `analyzeCheckInPhotos` does with the response once a photo was
selected and sent: map the structured result onto the check-in shape with
nullish fallbacks. -/
def afterFetch (resp : FetchResp) : Except Str CheckInOut :=
  if !resp.ok then .error (checkInError resp)
  else
    match resp.jsonBody with
    | none => .error (lit "response body was not JSON")
    | some data =>
      .ok
        { overall_score := nullish (jsGet data (lit "overallScore")) (JsVal.numV 75),
          summary := nullish (jsGet data (lit "summary"))
            (JsVal.strV (lit "Analysis complete.")),
          detected_concerns := nullish (jsGet data (lit "concerns")) (JsVal.arrV []),
          ai_notes := nullish (jsGet data (lit "summary")) (JsVal.strV []) }

/-- Embedding of the client `analyzeCheckInPhotos`, parameterised by the
network: `fetch` maps the photo sent in the request body to the response. -/
def analyzeCheckInPhotos (front leftP rightP : JsVal)
    (fetch : JsVal → FetchResp) : Except Str CheckInOut :=
  let photo := selectPhoto front leftP rightP
  if !(truthy photo) then .error (lit "No photo available for analysis")
  else afterFetch (fetch photo)

/-! ### Containment and slot lemmas -/

theorem containsSub_of_startsB {pat l : Str} (h : startsB pat l = true) :
    containsSub pat l = true := by
  cases l with
  | nil => exact h
  | cons c t => simp [containsSub, h]

theorem containsSub_cons {pat : Str} (c : Char) {l : Str}
    (h : containsSub pat l = true) : containsSub pat (c :: l) = true := by
  simp [containsSub, h]

theorem containsSub_append_left {pat : Str} (a : Str) {l : Str}
    (h : containsSub pat l = true) : containsSub pat (a ++ l) = true := by
  induction a with
  | nil => exact h
  | cons c a ih => exact containsSub_cons c ih

theorem containsSub_here (pat b : Str) : containsSub pat (pat ++ b) = true :=
  containsSub_of_startsB (startsB_append pat b)

theorem containsSub_nil_pat (l : Str) : containsSub [] l = true := by
  cases l with
  | nil => rfl
  | cons c t => exact containsSub_of_startsB rfl

theorem fieldSlot_str {v : Str} (hne : v ≠ []) (alt : Str) :
    fieldSlot (JsVal.strV v) alt = v := by
  cases v with
  | nil => exact absurd rfl hne
  | cons c t => rfl

theorem fieldSlot_undef (alt : Str) : fieldSlot JsVal.undef alt = alt := rfl

theorem concernsSlot_undef (alt : Str) : concernsSlot JsVal.undef alt = alt := rfl

theorem concernsSlot_arr (xs : List JsVal) (alt : Str) :
    concernsSlot (JsVal.arrV xs) alt = jsJoin (lit ", ") xs := rfl

theorem isFr_iff {langV : JsVal} : isFr langV = true ↔ langV = JsVal.strV (lit "fr") := by
  cases langV with
  | strV s =>
    simp only [isFr]
    rw [beq_iff_eq]
    constructor
    · intro h
      rw [h]
    · intro h
      injection h
  | undef => simp [isFr]
  | nullV => simp [isFr]
  | boolV b => simp [isFr]
  | numV n => simp [isFr]
  | arrV xs => simp [isFr]
  | objV fs => simp [isFr]

/-! ### The claims -/

set_option maxRecDepth 10000

/-- C1 (counterexample): the input consisting of a data URL followed by a
single trailing space matches the claimed pattern with payload b-space, yet
`normalizeBase64` does not return that payload — it trims before matching. -/
theorem claimC1_counterexample :
    RegexCaptures (lit "data:a;base64,b ") (lit "a") (lit "b ") ∧
    normalizeBase64 (lit "data:a;base64,b ") ≠ (lit "a", lit "b ") := by
  refine ⟨⟨?_, ?_⟩, ?_⟩
  · exact ⟨lit "data:", lit ";base64,", by decide, ⟨by decide, by decide⟩,
      ⟨by decide, by decide⟩, by decide, by decide, by decide, by decide⟩
  · intro m' p' hraw
    obtain ⟨_, _, _, _, _, hm'ne, _, _, _⟩ := hraw
    have h1 := List.length_pos.mpr hm'ne
    have h2 : (lit "a").length = 1 := by decide
    omega
  · decide

/-- C1 (amended): the data-URL regex is applied to the trimmed input; when the
trimmed input matches (with the lazy mime capture), the captures are returned;
otherwise the default mime type with the trimmed input as payload. The
function is total by construction. -/
theorem claimC1_normalizeBase64 :
    (∀ s m p, RegexCaptures (jsTrim s) m p → normalizeBase64 s = (m, p)) ∧
    (∀ s, (∀ m p, ¬ RawMatch (jsTrim s) m p) →
      normalizeBase64 s = (lit "image/jpeg", jsTrim s)) := by
  constructor
  · intro s m p hrc
    unfold normalizeBase64
    simp only
    rw [matchDataUrl_some_iff.mpr hrc]
  · intro s hno
    unfold normalizeBase64
    simp only
    rw [matchDataUrl_none_iff.mpr hno]

theorem claimC1_normalizeBase64_witness :
    normalizeBase64 (lit " data:a;base64,bb ") = (lit "a", lit "bb") ∧
    normalizeBase64 (lit "hello") = (lit "image/jpeg", lit "hello") := by
  constructor
  · apply claimC1_normalizeBase64.1
    constructor
    · exact ⟨lit "data:", lit ";base64,", by decide, ⟨by decide, by decide⟩,
        ⟨by decide, by decide⟩, by decide, by decide, by decide, by decide⟩
    · intro m' p' hraw
      obtain ⟨_, _, _, _, _, hm'ne, _, _, _⟩ := hraw
      have h1 := List.length_pos.mpr hm'ne
      have h2 : (lit "a").length = 1 := by decide
      omega
  · have h2 : jsTrim (lit "hello") = lit "hello" := by decide
    have h3 := claimC1_normalizeBase64.2 (lit "hello") ?_
    · rw [h2] at h3
      exact h3
    · intro m p hraw
      obtain ⟨d, x, heq, hd, hx, hmne, _, hpne, _⟩ := hraw
      have hd5 : dataPat.length = 5 := by decide
      have hx8 : sepPat.length = 8 := by decide
      have hdl := hd.1
      have hxl := hx.1
      have hml := List.length_pos.mpr hmne
      have hpl := List.length_pos.mpr hpne
      have htl : (jsTrim (lit "hello")).length = 5 := by decide
      have hlen := congrArg List.length heq
      simp only [List.length_append] at hlen
      omega

/-- C2: wrapping any string whose parse succeeds in json markdown fences and
running the fence-stripping-then-parse step of the structured endpoint
recovers the same value. -/
theorem claimC2_roundTrip (s : Str) (v : Json) (h : jsonParse s = some v) :
    jsonParse (cleanFence (wrapJson s)) = some v := by
  rw [cleanFence_wrapJson]
  exact jsonParse_jsTrim h

theorem claimC2_roundTrip_witness :
    jsonParse (cleanFence (wrapJson (lit "[1, 2]"))) =
      some (Json.arrV [Json.numV (lit "1"), Json.numV (lit "2")]) :=
  claimC2_roundTrip _ _ (by rfl)

/-- C3: on inputs with at most one leading fence marker and at most one
trailing fence marker (after removing a single marker from each edge of the
trimmed input, the trimmed remainder has no marker at either edge), the
fence-stripping pipeline is idempotent. -/
theorem claimC3_cleanFence_idem (s : Str) (h : atMostOneFence s = true) :
    cleanFence (cleanFence s) = cleanFence s := by
  have hne := noEdge_split (noEdge_cleanFence h)
  refine cleanFence_of_noEdge ?_ hne.1 hne.2
  rw [cleanFence_eq]
  exact jsTrim_idem _

theorem claimC3_cleanFence_idem_witness :
    atMostOneFence (lit "```json\n[1]\n```") = true ∧
    cleanFence (cleanFence (lit "```json\n[1]\n```")) =
      cleanFence (lit "```json\n[1]\n```") :=
  ⟨by decide, claimC3_cleanFence_idem _ (by decide)⟩

/-- C4 (counterexample): with model text consisting of hello surrounded by
spaces, the 200 body carries the text verbatim, which differs from the
trimmed text the claim asserts. -/
theorem claimC4_counterexample :
    (analyzePhotoHandler (lit "POST") (lit "application/json")
        (JsVal.strV (lit "abc")) JsVal.undef JsVal.undef true (lit " hello ")).1 =
      (200, RespBody.okText (lit " hello ")) ∧
    RespBody.okText (lit " hello ") ≠ RespBody.okText (jsTrim (lit " hello ")) := by
  constructor
  · rfl
  · intro h
    exact absurd (RespBody.okText.inj h) (by decide)

/-- C4 (amended): on every valid request with non-empty model text, the
free-text endpoint answers 200 with body ok-true and the model text exactly
as returned — no trimming, no fence stripping, no JSON parsing. -/
theorem claimC4_analyzePhoto_body :
    ∀ (ct : Str) (promptV langV : JsVal) (s mt : Str),
      containsSub (lit "application/json") (asciiLower ct) = true →
      s ≠ [] → s.length ≤ 8000000 → mt ≠ [] →
      (analyzePhotoHandler (lit "POST") ct (JsVal.strV s) promptV langV true mt).1 =
        (200, RespBody.okText mt) := by
  intro ct promptV langV s mt hct hs hlen hmt
  unfold analyzePhotoHandler
  rw [if_neg (by decide : ¬((!(lit "POST" == lit "POST")) = true))]
  rw [if_neg (show ¬((!containsSub (lit "application/json") (asciiLower ct)) = true) by
    simp [hct])]
  dsimp only
  have hie : s.isEmpty = false := by
    cases s with
    | nil => exact absurd rfl hs
    | cons a t => rfl
  rw [if_neg (show ¬(s.isEmpty = true) by simp [hie])]
  rw [if_neg (show ¬(8000000 < s.length) by omega)]
  rw [if_neg (by decide : ¬((!true) = true))]
  have hmtie : mt.isEmpty = false := by
    cases mt with
    | nil => exact absurd rfl hmt
    | cons a t => rfl
  rw [if_neg (show ¬(mt.isEmpty = true) by simp [hmtie])]

theorem claimC4_analyzePhoto_body_witness :
    (analyzePhotoHandler (lit "POST") (lit "application/json")
        (JsVal.strV (lit "abc")) JsVal.undef JsVal.undef true (lit "hi")).1 =
      (200, RespBody.okText (lit "hi")) :=
  claimC4_analyzePhoto_body _ _ _ _ _ (by decide) (by decide) (by decide) (by decide)

/-- C7: the size guard of the free-text endpoint is a strict boundary at
8,000,000 characters: longer image strings are rejected with 413 before any
model call (the model-call trace is none and the model text is irrelevant);
a string of exactly 8,000,000 characters passes the size check. -/
theorem claimC7_sizeGuard :
    (∀ (ct : Str) (promptV langV : JsVal) (s mt : Str) (apiKeyOk : Bool),
      containsSub (lit "application/json") (asciiLower ct) = true →
      8000001 ≤ s.length →
      analyzePhotoHandler (lit "POST") ct (JsVal.strV s) promptV langV apiKeyOk mt =
        ((413, RespBody.errB
          (lit "Image too large. Please upload a smaller image.")), none)) ∧
    (∀ (ct : Str) (promptV langV : JsVal) (s mt : Str),
      containsSub (lit "application/json") (asciiLower ct) = true →
      s.length = 8000000 → mt ≠ [] →
      (analyzePhotoHandler (lit "POST") ct (JsVal.strV s) promptV langV true mt).1 =
        (200, RespBody.okText mt)) := by
  constructor
  · intro ct promptV langV s mt apiKeyOk hct hlen
    unfold analyzePhotoHandler
    rw [if_neg (by decide : ¬((!(lit "POST" == lit "POST")) = true))]
    rw [if_neg (show ¬((!containsSub (lit "application/json") (asciiLower ct)) = true) by
      simp [hct])]
    dsimp only
    have hs : s ≠ [] := by
      intro h
      rw [h] at hlen
      simp at hlen
    have hie : s.isEmpty = false := by
      cases s with
      | nil => exact absurd rfl hs
      | cons a t => rfl
    rw [if_neg (show ¬(s.isEmpty = true) by simp [hie])]
    rw [if_pos (show 8000000 < s.length by omega)]
  · intro ct promptV langV s mt hct hlen hmt
    unfold analyzePhotoHandler
    rw [if_neg (by decide : ¬((!(lit "POST" == lit "POST")) = true))]
    rw [if_neg (show ¬((!containsSub (lit "application/json") (asciiLower ct)) = true) by
      simp [hct])]
    dsimp only
    have hs : s ≠ [] := by
      intro h
      rw [h] at hlen
      simp at hlen
    have hie : s.isEmpty = false := by
      cases s with
      | nil => exact absurd rfl hs
      | cons a t => rfl
    rw [if_neg (show ¬(s.isEmpty = true) by simp [hie])]
    rw [if_neg (show ¬(8000000 < s.length) by omega)]
    rw [if_neg (by decide : ¬((!true) = true))]
    have hmtie : mt.isEmpty = false := by
      cases mt with
      | nil => exact absurd rfl hmt
      | cons a t => rfl
    rw [if_neg (show ¬(mt.isEmpty = true) by simp [hmtie])]

theorem claimC7_sizeGuard_witness :
    analyzePhotoHandler (lit "POST") (lit "application/json")
        (JsVal.strV (List.replicate 8000001 'a')) JsVal.undef JsVal.undef true
        (lit "x") =
      ((413, RespBody.errB
        (lit "Image too large. Please upload a smaller image.")), none) ∧
    (analyzePhotoHandler (lit "POST") (lit "application/json")
        (JsVal.strV (List.replicate 8000000 'a')) JsVal.undef JsVal.undef true
        (lit "x")).1 =
      (200, RespBody.okText (lit "x")) := by
  constructor
  · exact claimC7_sizeGuard.1 _ _ _ _ _ _ (by decide)
      (by rw [List.length_replicate])
  · exact claimC7_sizeGuard.2 _ _ _ _ _ (by decide)
      (by rw [List.length_replicate]) (by decide)

/-- C8: on both AI endpoints, a valid request whose model invocation returns
empty text is answered with 502 and the exact empty-response error body. -/
theorem claimC8_emptyModel :
    (∀ (ct : Str) (profileV languageRawV photoDataV : JsVal),
      containsSub (lit "application/json") (asciiLower ct) = true →
      truthy profileV = true →
      (skinAnalysisHandler (lit "POST") ct profileV languageRawV photoDataV
          true []).1 =
        (502, RespBody.errB (lit "Empty response from AI model."))) ∧
    (∀ (ct : Str) (promptV langV : JsVal) (s : Str),
      containsSub (lit "application/json") (asciiLower ct) = true →
      s ≠ [] → s.length ≤ 8000000 →
      (analyzePhotoHandler (lit "POST") ct (JsVal.strV s) promptV langV
          true []).1 =
        (502, RespBody.errB (lit "Empty response from AI model."))) := by
  constructor
  · intro ct profileV languageRawV photoDataV hct hpr
    unfold skinAnalysisHandler
    rw [if_neg (by decide : ¬((!(lit "POST" == lit "POST")) = true))]
    rw [if_neg (show ¬((!containsSub (lit "application/json") (asciiLower ct)) = true) by
      simp [hct])]
    dsimp only
    rw [if_neg (show ¬((!truthy profileV) = true) by simp [hpr])]
    rw [if_neg (by decide : ¬((!true) = true))]
    rw [if_pos (show ([] : Str).isEmpty = true from rfl)]
  · intro ct promptV langV s hct hs hlen
    unfold analyzePhotoHandler
    rw [if_neg (by decide : ¬((!(lit "POST" == lit "POST")) = true))]
    rw [if_neg (show ¬((!containsSub (lit "application/json") (asciiLower ct)) = true) by
      simp [hct])]
    dsimp only
    have hie : s.isEmpty = false := by
      cases s with
      | nil => exact absurd rfl hs
      | cons a t => rfl
    rw [if_neg (show ¬(s.isEmpty = true) by simp [hie])]
    rw [if_neg (show ¬(8000000 < s.length) by omega)]
    rw [if_neg (by decide : ¬((!true) = true))]
    rw [if_pos (show ([] : Str).isEmpty = true from rfl)]

theorem claimC8_emptyModel_witness :
    (skinAnalysisHandler (lit "POST") (lit "application/json")
        (JsVal.objV []) JsVal.undef JsVal.undef true []).1 =
      (502, RespBody.errB (lit "Empty response from AI model.")) ∧
    (analyzePhotoHandler (lit "POST") (lit "application/json")
        (JsVal.strV (lit "abc")) JsVal.undef JsVal.undef true []).1 =
      (502, RespBody.errB (lit "Empty response from AI model.")) :=
  ⟨claimC8_emptyModel.1 _ _ _ _ (by decide) (by decide),
   claimC8_emptyModel.2 _ _ _ _ (by decide) (by decide) (by decide)⟩

/-- C10: the profile check of the structured endpoint rejects every falsy
profile value with 400 and the exact missing-profile body, before any model
call; every truthy profile value, of any type, passes the check and the
handler proceeds to build prompts and call the model. -/
theorem claimC10_profileCheck :
    (∀ (ct : Str) (profileV languageRawV photoDataV : JsVal) (apiKeyOk : Bool)
        (mt : Str),
      containsSub (lit "application/json") (asciiLower ct) = true →
      (profileV = JsVal.nullV ∨ profileV = JsVal.boolV false ∨
        profileV = JsVal.numV 0 ∨ profileV = JsVal.strV []) →
      skinAnalysisHandler (lit "POST") ct profileV languageRawV photoDataV
          apiKeyOk mt =
        ((400, RespBody.errB (lit "Missing profile data.")), none)) ∧
    (∀ (ct : Str) (profileV languageRawV photoDataV : JsVal) (mt : Str),
      containsSub (lit "application/json") (asciiLower ct) = true →
      truthy profileV = true →
      (skinAnalysisHandler (lit "POST") ct profileV languageRawV photoDataV
          true mt).2 =
        some (skinModelCall (langDefault languageRawV) profileV photoDataV)) := by
  constructor
  · intro ct profileV languageRawV photoDataV apiKeyOk mt hct hfalsy
    unfold skinAnalysisHandler
    rw [if_neg (by decide : ¬((!(lit "POST" == lit "POST")) = true))]
    rw [if_neg (show ¬((!containsSub (lit "application/json") (asciiLower ct)) = true) by
      simp [hct])]
    dsimp only
    have hft : truthy profileV = false := by
      rcases hfalsy with rfl | rfl | rfl | rfl <;> rfl
    rw [if_pos (show (!truthy profileV) = true by simp [hft])]
  · intro ct profileV languageRawV photoDataV mt hct hpr
    unfold skinAnalysisHandler
    rw [if_neg (by decide : ¬((!(lit "POST" == lit "POST")) = true))]
    rw [if_neg (show ¬((!containsSub (lit "application/json") (asciiLower ct)) = true) by
      simp [hct])]
    dsimp only
    rw [if_neg (show ¬((!truthy profileV) = true) by simp [hpr])]
    rw [if_neg (by decide : ¬((!true) = true))]
    by_cases hmt : mt.isEmpty = true
    · rw [if_pos hmt]
    · rw [if_neg hmt]
      cases hjp : jsonParse (cleanFence mt) with
      | some v => rfl
      | none => rfl

theorem claimC10_profileCheck_witness :
    skinAnalysisHandler (lit "POST") (lit "application/json") JsVal.nullV
        JsVal.undef JsVal.undef true (lit "x") =
      ((400, RespBody.errB (lit "Missing profile data.")), none) ∧
    (skinAnalysisHandler (lit "POST") (lit "application/json")
        (JsVal.strV (lit "not an object")) JsVal.undef JsVal.undef true
        (lit "x")).2 =
      some (skinModelCall (langDefault JsVal.undef)
        (JsVal.strV (lit "not an object")) JsVal.undef) :=
  ⟨claimC10_profileCheck.1 _ _ _ _ _ _ (by decide) (Or.inl rfl),
   claimC10_profileCheck.2 _ _ _ _ _ (by decide) (by decide)⟩

/-- C5 (counterexample): with the photo absent (falsy) but the skinType field
set to the notice sentence itself, the built prompt does contain the
photo-provided notice line, refuting the only-if direction of the claim. -/
theorem claimC5_counterexample :
    containsSub (photoNotice false)
      (userPrompt (JsVal.strV (lit "en"))
        (JsVal.objV [(lit "skinType",
          JsVal.strV (lit "Skin photo provided for visual analysis."))])
        JsVal.undef) = true ∧
    truthy JsVal.undef = false := by
  constructor
  · decide
  · rfl

/-- C5 (amended): for each supported language, the user prompt contains the
language-appropriate placeholder for every absent optional field, contains
the literal value of every present string field (and the comma-joined list
for a present concerns array), and contains the photo notice line whenever
photoData is truthy. The only-if direction of the notice clause is dropped:
a supplied field value can itself embed the notice line, as the
counterexample shows; it holds in the restricted form that with all fields
absent and photoData absent the prompt does not contain the notice line. -/
theorem claimC5_userPrompt :
    ∀ (fr : Bool) (profileV photoDataV : JsVal) (u : Str),
      u = userPrompt (JsVal.strV (if fr then lit "fr" else lit "en"))
        profileV photoDataV →
      ((jsGet profileV (lit "skinType") = JsVal.undef →
         containsSub (notSpec fr) u = true) ∧
       (jsGet profileV (lit "ageRange") = JsVal.undef →
         containsSub (notSpec fr) u = true) ∧
       (jsGet profileV (lit "sunExposure") = JsVal.undef →
         containsSub (notSpec fr) u = true) ∧
       (jsGet profileV (lit "currentRoutine") = JsVal.undef →
         containsSub (notSpec fr) u = true) ∧
       (jsGet profileV (lit "concerns") = JsVal.undef →
         containsSub (noConcerns fr) u = true) ∧
       (∀ v, jsGet profileV (lit "skinType") = JsVal.strV v →
         containsSub v u = true) ∧
       (∀ v, jsGet profileV (lit "ageRange") = JsVal.strV v →
         containsSub v u = true) ∧
       (∀ v, jsGet profileV (lit "sunExposure") = JsVal.strV v →
         containsSub v u = true) ∧
       (∀ v, jsGet profileV (lit "currentRoutine") = JsVal.strV v →
         containsSub v u = true) ∧
       (∀ xs, jsGet profileV (lit "concerns") = JsVal.arrV xs →
         containsSub (jsJoin (lit ", ") xs) u = true) ∧
       (truthy photoDataV = true → containsSub (photoNotice fr) u = true) ∧
       (profileV = JsVal.objV [] → photoDataV = JsVal.undef →
         containsSub (photoNotice fr) u = false)) := by
  intro fr profileV photoDataV u hu
  subst hu
  cases fr with
  | false =>
    simp only [show (if false = true then lit "fr" else lit "en") = lit "en" from rfl]
    unfold userPrompt
    rw [if_neg (show ¬(isFr (JsVal.strV (lit "en")) = true) by decide)]
    refine ⟨?_, ?_, ?_, ?_, ?_, ?_, ?_, ?_, ?_, ?_, ?_, ?_⟩
    · intro h
      rw [h, fieldSlot_undef]
      simp only [List.append_assoc]
      repeat' (first | exact containsSub_here _ _ | apply containsSub_append_left)
    · intro h
      rw [h, fieldSlot_undef]
      simp only [List.append_assoc]
      repeat' (first | exact containsSub_here _ _ | apply containsSub_append_left)
    · intro h
      rw [h, fieldSlot_undef]
      simp only [List.append_assoc]
      repeat' (first | exact containsSub_here _ _ | apply containsSub_append_left)
    · intro h
      rw [h, fieldSlot_undef]
      simp only [List.append_assoc]
      repeat' (first | exact containsSub_here _ _ | apply containsSub_append_left)
    · intro h
      rw [h, concernsSlot_undef]
      simp only [List.append_assoc]
      repeat' (first | exact containsSub_here _ _ | apply containsSub_append_left)
    · intro v h
      cases v with
      | nil => exact containsSub_nil_pat _
      | cons c t =>
        rw [h, fieldSlot_str (List.cons_ne_nil c t)]
        simp only [List.append_assoc]
        repeat' (first | exact containsSub_here _ _ | apply containsSub_append_left)
    · intro v h
      cases v with
      | nil => exact containsSub_nil_pat _
      | cons c t =>
        rw [h, fieldSlot_str (List.cons_ne_nil c t)]
        simp only [List.append_assoc]
        repeat' (first | exact containsSub_here _ _ | apply containsSub_append_left)
    · intro v h
      cases v with
      | nil => exact containsSub_nil_pat _
      | cons c t =>
        rw [h, fieldSlot_str (List.cons_ne_nil c t)]
        simp only [List.append_assoc]
        repeat' (first | exact containsSub_here _ _ | apply containsSub_append_left)
    · intro v h
      cases v with
      | nil => exact containsSub_nil_pat _
      | cons c t =>
        rw [h, fieldSlot_str (List.cons_ne_nil c t)]
        simp only [List.append_assoc]
        repeat' (first | exact containsSub_here _ _ | apply containsSub_append_left)
    · intro xs h
      rw [h, concernsSlot_arr]
      simp only [List.append_assoc]
      repeat' (first | exact containsSub_here _ _ | apply containsSub_append_left)
    · intro h
      rw [if_pos h]
      simp only [List.append_assoc]
      repeat' (first | exact containsSub_here _ _ | apply containsSub_append_left)
    · intro hp hd
      subst hp
      subst hd
      decide
  | true =>
    simp only [show (if true = true then lit "fr" else lit "en") = lit "fr" from rfl,
      show (if True then lit "fr" else lit "en") = lit "fr" from rfl]
    unfold userPrompt
    rw [if_pos (show isFr (JsVal.strV (lit "fr")) = true from rfl)]
    refine ⟨?_, ?_, ?_, ?_, ?_, ?_, ?_, ?_, ?_, ?_, ?_, ?_⟩
    · intro h
      rw [h, fieldSlot_undef]
      simp only [List.append_assoc]
      repeat' (first | exact containsSub_here _ _ | apply containsSub_append_left)
    · intro h
      rw [h, fieldSlot_undef]
      simp only [List.append_assoc]
      repeat' (first | exact containsSub_here _ _ | apply containsSub_append_left)
    · intro h
      rw [h, fieldSlot_undef]
      simp only [List.append_assoc]
      repeat' (first | exact containsSub_here _ _ | apply containsSub_append_left)
    · intro h
      rw [h, fieldSlot_undef]
      simp only [List.append_assoc]
      repeat' (first | exact containsSub_here _ _ | apply containsSub_append_left)
    · intro h
      rw [h, concernsSlot_undef]
      simp only [List.append_assoc]
      repeat' (first | exact containsSub_here _ _ | apply containsSub_append_left)
    · intro v h
      cases v with
      | nil => exact containsSub_nil_pat _
      | cons c t =>
        rw [h, fieldSlot_str (List.cons_ne_nil c t)]
        simp only [List.append_assoc]
        repeat' (first | exact containsSub_here _ _ | apply containsSub_append_left)
    · intro v h
      cases v with
      | nil => exact containsSub_nil_pat _
      | cons c t =>
        rw [h, fieldSlot_str (List.cons_ne_nil c t)]
        simp only [List.append_assoc]
        repeat' (first | exact containsSub_here _ _ | apply containsSub_append_left)
    · intro v h
      cases v with
      | nil => exact containsSub_nil_pat _
      | cons c t =>
        rw [h, fieldSlot_str (List.cons_ne_nil c t)]
        simp only [List.append_assoc]
        repeat' (first | exact containsSub_here _ _ | apply containsSub_append_left)
    · intro v h
      cases v with
      | nil => exact containsSub_nil_pat _
      | cons c t =>
        rw [h, fieldSlot_str (List.cons_ne_nil c t)]
        simp only [List.append_assoc]
        repeat' (first | exact containsSub_here _ _ | apply containsSub_append_left)
    · intro xs h
      rw [h, concernsSlot_arr]
      simp only [List.append_assoc]
      repeat' (first | exact containsSub_here _ _ | apply containsSub_append_left)
    · intro h
      rw [if_pos h]
      simp only [List.append_assoc]
      repeat' (first | exact containsSub_here _ _ | apply containsSub_append_left)
    · intro hp hd
      subst hp
      subst hd
      decide

theorem claimC5_userPrompt_witness :
    containsSub (notSpec false)
      (userPrompt (JsVal.strV (lit "en"))
        (JsVal.objV [(lit "skinType", JsVal.strV (lit "oily"))])
        (JsVal.strV (lit "p"))) = true ∧
    containsSub (lit "oily")
      (userPrompt (JsVal.strV (lit "en"))
        (JsVal.objV [(lit "skinType", JsVal.strV (lit "oily"))])
        (JsVal.strV (lit "p"))) = true ∧
    containsSub (photoNotice false)
      (userPrompt (JsVal.strV (lit "en"))
        (JsVal.objV [(lit "skinType", JsVal.strV (lit "oily"))])
        (JsVal.strV (lit "p"))) = true := by
  have h := claimC5_userPrompt false
    (JsVal.objV [(lit "skinType", JsVal.strV (lit "oily"))])
    (JsVal.strV (lit "p")) _ rfl
  exact ⟨h.2.1 rfl, h.2.2.2.2.2.1 (lit "oily") rfl, h.2.2.2.2.2.2.2.2.2.2.1 rfl⟩

/-- C6 (counterexample): a caller prompt with surrounding whitespace is used
trimmed, not verbatim, as the model instruction. -/
theorem claimC6_counterexample :
    basePromptF (JsVal.strV (lit " X ")) JsVal.undef = lit "X" ∧
    lit "X" ≠ lit " X " := by
  constructor
  · decide
  · decide

/-- C6 (amended): a caller prompt that is a string with non-empty trimmed
content is used trimmed as the model instruction; any other prompt value
selects the fixed cosmetic-coach template, rendered with the language name
French exactly when lang is the string fr and English for every other
value. -/
theorem claimC6_basePrompt :
    (∀ (s : Str) (langV : JsVal), jsTrim s ≠ [] →
      basePromptF (JsVal.strV s) langV = jsTrim s) ∧
    (∀ (promptV langV : JsVal),
      (∀ s, promptV = JsVal.strV s → jsTrim s = []) →
      basePromptF promptV langV = photoTemplate langV) ∧
    (∀ promptV : JsVal,
      (∀ s, promptV = JsVal.strV s → jsTrim s = []) →
      containsSub (lit "Write in French.")
        (basePromptF promptV (JsVal.strV (lit "fr"))) = true) ∧
    (∀ (promptV langV : JsVal),
      (∀ s, promptV = JsVal.strV s → jsTrim s = []) →
      langV ≠ JsVal.strV (lit "fr") →
      containsSub (lit "Write in English.") (basePromptF promptV langV) = true) := by
  have hbase : ∀ (promptV langV : JsVal),
      (∀ s, promptV = JsVal.strV s → jsTrim s = []) →
      basePromptF promptV langV = photoTemplate langV := by
    intro promptV langV hp
    cases promptV with
    | strV s =>
      have hs := hp s rfl
      simp only [basePromptF]
      rw [hs]
      rfl
    | undef => rfl
    | nullV => rfl
    | boolV b => rfl
    | numV n => rfl
    | arrV xs => rfl
    | objV fs => rfl
  refine ⟨?_, hbase, ?_, ?_⟩
  · intro s langV h
    have hie : (jsTrim s).isEmpty = false := by
      cases hjt : jsTrim s with
      | nil => exact absurd hjt h
      | cons a t => rfl
    simp only [basePromptF]
    rw [if_pos (show (!(jsTrim s).isEmpty) = true by simp [hie])]
  · intro promptV hp
    rw [hbase promptV _ hp]
    decide
  · intro promptV langV hp hlang
    rw [hbase promptV _ hp]
    have hfr : isFr langV = false := by
      by_contra hc
      rw [Bool.not_eq_false] at hc
      exact hlang (isFr_iff.mp hc)
    unfold photoTemplate
    rw [hfr]
    simp only [Bool.false_eq_true, if_false]
    decide

theorem claimC6_basePrompt_witness :
    basePromptF (JsVal.strV (lit " do X ")) JsVal.undef = lit "do X" ∧
    containsSub (lit "Write in English.")
      (basePromptF JsVal.undef JsVal.undef) = true := by
  constructor
  · have h := claimC6_basePrompt.1 (lit " do X ") JsVal.undef (by decide)
    rw [h]
    decide
  · exact claimC6_basePrompt.2.2.2 JsVal.undef JsVal.undef
      (fun s h => by cases h) (fun h => by cases h)

/-- C9: the check-in operation selects the first truthy photo in the order
front, left, right (in particular X is chosen from null, X, Y); with no photo
it fails with the exact no-photo message independently of the network; a
successful structured response is mapped onto the check-in shape, with score
75 and the fixed summary substituted when the upstream fields are absent. -/
theorem claimC9_checkIn :
    (∀ f l r : JsVal, truthy f = true → selectPhoto f l r = f) ∧
    (∀ f l r : JsVal, truthy f = false → truthy l = true → selectPhoto f l r = l) ∧
    (∀ f l r : JsVal, truthy f = false → truthy l = false → selectPhoto f l r = r) ∧
    (∀ fetch : JsVal → FetchResp,
      analyzeCheckInPhotos JsVal.nullV (JsVal.strV (lit "X"))
          (JsVal.strV (lit "Y")) fetch =
        afterFetch (fetch (JsVal.strV (lit "X")))) ∧
    (∀ fetch : JsVal → FetchResp,
      analyzeCheckInPhotos JsVal.nullV JsVal.nullV JsVal.nullV fetch =
        Except.error (lit "No photo available for analysis")) ∧
    (∀ (st : Nat) (stx : Str) (data : JsVal) (n : Int) (sm : Str) (cs : List JsVal),
      jsGet data (lit "overallScore") = JsVal.numV n →
      jsGet data (lit "summary") = JsVal.strV sm →
      jsGet data (lit "concerns") = JsVal.arrV cs →
      afterFetch ⟨true, st, stx, some data⟩ =
        Except.ok ⟨JsVal.numV n, JsVal.strV sm, JsVal.arrV cs, JsVal.strV sm⟩) ∧
    (∀ (st : Nat) (stx : Str) (data : JsVal),
      jsGet data (lit "overallScore") = JsVal.undef →
      jsGet data (lit "summary") = JsVal.undef →
      jsGet data (lit "concerns") = JsVal.undef →
      afterFetch ⟨true, st, stx, some data⟩ =
        Except.ok ⟨JsVal.numV 75, JsVal.strV (lit "Analysis complete."),
          JsVal.arrV [], JsVal.strV []⟩) := by
  refine ⟨?_, ?_, ?_, ?_, ?_, ?_, ?_⟩
  · intro f l r hf
    unfold selectPhoto jsOr
    rw [if_pos hf]
  · intro f l r hf hl
    unfold selectPhoto jsOr
    rw [if_neg (by simp [hf]), if_pos hl]
  · intro f l r hf hl
    unfold selectPhoto jsOr
    rw [if_neg (by simp [hf]), if_neg (by simp [hl])]
  · intro fetch
    rfl
  · intro fetch
    rfl
  · intro st stx data n sm cs h1 h2 h3
    unfold afterFetch
    rw [if_neg (by decide : ¬((!true) = true))]
    dsimp only
    rw [h1, h2, h3]
    rfl
  · intro st stx data h1 h2 h3
    unfold afterFetch
    rw [if_neg (by decide : ¬((!true) = true))]
    dsimp only
    rw [h1, h2, h3]
    rfl

theorem claimC9_checkIn_witness :
    analyzeCheckInPhotos JsVal.nullV JsVal.nullV JsVal.nullV
        (fun _ => ⟨true, 200, [], none⟩) =
      Except.error (lit "No photo available for analysis") ∧
    afterFetch ⟨true, 200, [], some (JsVal.objV
        [(lit "overallScore", JsVal.numV 88),
         (lit "summary", JsVal.strV (lit "S")),
         (lit "concerns", JsVal.arrV [JsVal.strV (lit "acne")])])⟩ =
      Except.ok ⟨JsVal.numV 88, JsVal.strV (lit "S"),
        JsVal.arrV [JsVal.strV (lit "acne")], JsVal.strV (lit "S")⟩ ∧
    afterFetch ⟨true, 200, [], some (JsVal.objV [])⟩ =
      Except.ok ⟨JsVal.numV 75, JsVal.strV (lit "Analysis complete."),
        JsVal.arrV [], JsVal.strV []⟩ :=
  ⟨claimC9_checkIn.2.2.2.2.1 _,
   claimC9_checkIn.2.2.2.2.2.1 _ _ _ _ _ _ rfl rfl rfl,
   claimC9_checkIn.2.2.2.2.2.2 _ _ _ rfl rfl rfl⟩
